import Mathlib

/-!
Verification of the process-sentinel coordination engine (`src/index.js`).

The module is embedded as an explicit state machine.  JavaScript values that
flow through the emitter and the exit primitive are modelled by `JsVal`;
the sentinel singleton, the module-level `exit` wrapper, the console, the
pending timers and the promise machinery are all folded into one record
`SentinelState` that every operation transforms.

Library semantics relied on (these are external collaborators of the file
under verification, modelled by their documented behaviour):
* `eventemitter2`: `emit(type, a)` invokes listeners registered with
  `on(type, h)` as `h(a)` (the type is NOT passed), and listeners registered
  with `onAny(h)` as `h(type, a)`; `off(type, f)` removes listeners
  identical to `f`; there is no `emitAny` method, so calling it throws.
* `node-promise`: `Promise.all(ps)` fulfills with the ARRAY of values and
  rejects with the first rejection reason; an error callback attached by
  `.then(null, cb)` receives exactly one argument (the reason);
  `deferred.timeout(ms)` arms a timer that rejects the deferred with a
  timeout error if it has not settled after `ms`, and returns the promise.
* `node`: handlers run to completion; `done` callbacks of the behaviours
  modelled here are invoked synchronously inside the handler.
-/

/-- A JavaScript value as it appears at the interfaces we model. -/
inductive JsVal where
  | undef : JsVal
  | boolV : Bool → JsVal
  | strV : String → JsVal
  | numV : Nat → JsVal
deriving DecidableEq, Repr

/-- JavaScript truthiness of a `JsVal`. -/
def truthy : JsVal → Bool
  | .undef => false
  | .boolV b => b
  | .strV s => !s.isEmpty
  | .numV n => n != 0

/-- JavaScript `a || b`. -/
def jsOr (a b : JsVal) : JsVal := if truthy a then a else b

/-- What a user handler does when invoked with `(event, done)`:
resolve (optionally after vetoing), reject with an error (optionally after
vetoing), or veto/ignore and never call `done`. -/
inductive HBehavior where
  | hResolve : Bool → HBehavior
  | hReject : Bool → String → HBehavior
  | hStall : Bool → HBehavior
deriving DecidableEq, Repr

/-- Whether the handler calls `event.preventDefault()` before settling. -/
def vetoOf : HBehavior → Bool
  | .hResolve v => v
  | .hReject v _ => v
  | .hStall v => v

def isReject : HBehavior → Bool
  | .hReject _ _ => true
  | _ => false

/-- State of the deferred created in `_addEventHandler` (src/index.js:228). -/
inductive DeferState where
  | pending : DeferState
  | resolvedD : Nat → DeferState
  | rejectedD : String → DeferState
deriving DecidableEq, Repr

/-- One `Event` object (src/index.js:25-28): a target and a veto flag.
`eid` is the allocation identity, so distinct `new Event(...)` calls are
distinguishable. -/
structure Event where
  eid : Nat
  target : JsVal
  prevented : Bool
deriving DecidableEq, Repr

/-- One stored registration produced by `_addEventHandler`
(src/index.js:227-255): the user's function (`uid`), its behaviour, the
closure-captured `fired` flag, the deferred, the creation-time stack
(src/index.js:230) and the deadlines of the timers armed by
`defer.timeout(this._timeout)` (src/index.js:234) — one entry per
invocation of the internal wrapper, which is also the number of
`.then(null, timeoutHandler)` chains attached to the deferred.
Registrations are identified positionally: the registration created
`rid`-th lives at index `rid` of `SentinelState.regs`. -/
structure Reg where
  uid : Nat
  behavior : HBehavior
  fired : Bool
  defer : DeferState
  stack : String
  deadlines : List Nat
deriving DecidableEq, Repr

/-- A listener slot in the emitter: either the internal bound wrapper of a
registration, or a bare user function (never actually stored by the
sentinel — `_addEventHandler` always registers the wrapper). -/
inductive LEntry where
  | wrapper : Nat → LEntry
  | userFn : Nat → LEntry
deriving DecidableEq, Repr

/-- A console line: either the timeout-guard message of
`timeoutHandler` (src/index.js:88), carrying the creation stack and the
current stack, or the `console.error('%s%s', err.message, err.stack)` line
of the rejection branch (src/index.js:72). -/
inductive LogLine where
  | timeoutLog : String → String → LogLine
  | errorLog : String → LogLine
deriving DecidableEq, Repr

/-- A recorded invocation of a user handler: with its event (normal path,
src/index.js:241) or with no arguments (late-registration fast path,
src/index.js:169). -/
inductive CallRecord where
  | withEvent : Nat → Nat → CallRecord
  | bare : Nat → CallRecord
deriving DecidableEq, Repr

/-- An aggregation (`Promise.all` of src/index.js:64) whose callbacks were
attached by `processTerminationHandler` while some token was still pending;
`toks` is the snapshot of the concatenated promise buckets. -/
structure PendingAgg where
  aggName : String
  code : JsVal
  toks : List Nat
deriving DecidableEq, Repr

/-- The whole observable state: the `ProcessSentinel` fields
(`_firedMap`, `_promises`, `_events` listener tables, `_timeout`), the
registrations with their deferreds, the allocated events, the invocation
log, the console, the module-level one-shot `exit` wrapper
(src/index.js:13-18), logical time and the not-yet-settled aggregations. -/
structure SentinelState where
  firedMap : List String
  regs : List Reg
  onMap : List (String × List LEntry)
  anyList : List LEntry
  promises : List (String × List Nat)
  events : List Event
  eventCtr : Nat
  calls : List CallRecord
  logs : List LogLine
  exitConsumed : Bool
  exitCalls : List JsVal
  timeoutVal : Nat
  now : Nat
  pendingAggs : List PendingAgg
deriving DecidableEq, Repr

/-- Bucket lookup in an association list (MultiMap / emitter tables);
a missing key is an empty bucket, as `collections/multi-map` auto-creates
empty buckets. -/
def alistGet {α : Type} (m : List (String × List α)) (k : String) : List α :=
  match m with
  | [] => []
  | (k1, v) :: rest => if k1 = k then v else alistGet rest k

/-- Bucket replacement in an association list. -/
def alistSet {α : Type} (m : List (String × List α)) (k : String) (v : List α) :
    List (String × List α) :=
  match m with
  | [] => [(k, v)]
  | (k1, v1) :: rest => if k1 = k then (k, v) :: rest else (k1, v1) :: alistSet rest k v

/-- Append one element to a bucket (`this._promises.get(name).push(x)`). -/
def pushBucket {α : Type} (m : List (String × List α)) (k : String) (x : α) :
    List (String × List α) :=
  alistSet m k (alistGet m k ++ [x])

/-- Point update of the registration at index `i`. -/
def updAt : List Reg → Nat → (Reg → Reg) → List Reg
  | [], _, _ => []
  | r :: rest, 0, f => f r :: rest
  | r :: rest, n + 1, f => r :: updAt rest n f

/-- The module-level `exit` wrapper (src/index.js:15-18): the first call
forwards its code to the saved real `process.exit` and then replaces the
wrapper with `nullFunction`; later calls do nothing.  `exitCalls` records
the codes actually passed to the real primitive. -/
def exitCall (s : SentinelState) (code : JsVal) : SentinelState :=
  if s.exitConsumed then s
  else { s with exitCalls := s.exitCalls ++ [code], exitConsumed := true }

def pushLog (s : SentinelState) (l : LogLine) : SentinelState :=
  { s with logs := s.logs ++ [l] }

/-- The stack captured by `new Error().stack` at the moment the
timeout guard fires. -/
def currentStackStr : String := "current_stack"

/-- `new Error().stack` captured in `_addEventHandler` for the `rid`-th
registration (src/index.js:230). -/
def stackStr (rid : Nat) : String := "creation_stack_" ++ toString rid

/-- `timeoutHandler` (src/index.js:87-90): log the creation stack together
with the current stack, then call the exit wrapper with code 1. -/
def timeoutHandler (stack : String) (s : SentinelState) : SentinelState :=
  exitCall (pushLog s (.timeoutLog stack currentStackStr)) (.numV 1)

/-- Fire every `.then(null, timeoutHandler.bind(null, stack))` chain that
was attached to a deferred (one per wrapper invocation). -/
def iterTimeoutHandler (stack : String) : Nat → SentinelState → SentinelState
  | 0, s => s
  | n + 1, s => iterTimeoutHandler stack n (timeoutHandler stack s)

/-- `defer.resolve(event)` (src/index.js:245): settles the deferred with
the handler's event if it is still pending. -/
def resolveDefer (rid : Nat) (eid : Nat) (s : SentinelState) : SentinelState :=
  match s.regs.get? rid with
  | some r =>
    match r.defer with
    | .pending => { s with regs := updAt s.regs rid (fun q => { q with defer := .resolvedD eid }) }
    | _ => s
  | none => s

/-- `defer.reject(err, event)` (src/index.js:243; the second argument is
ignored by node-promise): settles the deferred as rejected and fires every
attached `timeoutHandler` error callback. -/
def rejectDefer (rid : Nat) (err : String) (s : SentinelState) : SentinelState :=
  match s.regs.get? rid with
  | some r =>
    match r.defer with
    | .pending =>
      iterTimeoutHandler r.stack r.deadlines.length
        { s with regs := updAt s.regs rid (fun q => { q with defer := .rejectedD err }) }
    | _ => s
  | none => s

/-- The internal listener installed by `_addEventHandler`
(src/index.js:233-249), invoked by the emitter with up to two arguments
`(a1, a2)`, which the source binds as `(name, opt_preventDefault)`:
arm `defer.timeout(this._timeout)` and attach the timeout error callback;
then, if the registration has not fired yet, mark it fired, create a fresh
`Event(a1)`, preset its veto flag when `a2` is truthy, and invoke the user
handler with `(event, done)`. -/
def runWrapper (rid : Nat) (a1 a2 : JsVal) (s : SentinelState) : SentinelState :=
  match s.regs.get? rid with
  | none => s
  | some r =>
    let s1 := { s with
      regs := updAt s.regs rid (fun q => { q with deadlines := q.deadlines ++ [s.now + s.timeoutVal] }) }
    if r.fired then s1
    else
      let s2 := { s1 with regs := updAt s1.regs rid (fun q => { q with fired := true }) }
      let eid := s2.eventCtr
      let prevented := truthy a2 || vetoOf r.behavior
      let s3 := { s2 with
        events := s2.events ++ [⟨eid, a1, prevented⟩],
        eventCtr := eid + 1,
        calls := s2.calls ++ [.withEvent r.uid eid] }
      match r.behavior with
      | .hResolve _ => resolveDefer rid eid s3
      | .hReject _ err => rejectDefer rid err s3
      | .hStall _ => s3

/-- Run a list of emitter listeners in order with arguments `(a1, a2)`. -/
def runEntries (a1 a2 : JsVal) : List LEntry → SentinelState → SentinelState
  | [], s => s
  | .wrapper rid :: rest, s => runEntries a1 a2 rest (runWrapper rid a1 a2 s)
  | .userFn _ :: rest, s => runEntries a1 a2 rest s

/-- `this._events.emit(name, args...)` with `eventemitter2` semantics:
listeners registered with `on(name, h)` receive the emitted arguments
only; listeners registered with `onAny(h)` receive the event type followed
by the arguments. -/
def dispatchEmit (name : String) (args : List JsVal) (s : SentinelState) : SentinelState :=
  let a1 := args.getD 0 .undef
  let a2 := args.getD 1 .undef
  let s1 := runEntries a1 a2 (alistGet s.onMap name) s
  runEntries (.strV name) a1 s1.anyList s1

/-- Outcome of inspecting a `Promise.all` of the given tokens. -/
inductive AggRes where
  | resolvedA : AggRes
  | rejectedA : String → AggRes
  | pendingA : AggRes

/-- The first already-rejected token, if any (node-promise's `all` rejects
with the first rejection reason, even while other tokens are pending). -/
def firstRejected (s : SentinelState) : List Nat → Option String
  | [] => none
  | rid :: rest =>
    match s.regs.get? rid with
    | some r =>
      match r.defer with
      | .rejectedD e => some e
      | _ => firstRejected s rest
    | none => firstRejected s rest

def isResolvedTok (s : SentinelState) (rid : Nat) : Bool :=
  match s.regs.get? rid with
  | some r =>
    match r.defer with
    | .resolvedD _ => true
    | _ => false
  | none => false

def aggNow (s : SentinelState) (toks : List Nat) : AggRes :=
  match firstRejected s toks with
  | some e => .rejectedA e
  | none => if toks.all (isResolvedTok s) then .resolvedA else .pendingA

/-- The success callback of src/index.js:65-68.  node-promise's `all`
fulfills with the ARRAY of values, so the callback's `e` is that array;
`e.defaultPrevented` is `undefined` (arrays have no such property), so
`!e.defaultPrevented` is always true and `exit(code || 0)` always runs. -/
def resolveCb (code : JsVal) (s : SentinelState) : SentinelState :=
  let dp := JsVal.undef
  if truthy dp then s else exitCall s (jsOr code (.numV 0))

/-- The error callback of src/index.js:69-78, declared as
`function(err, e)`.  node-promise invokes error callbacks with exactly one
argument (the rejection reason), so `e` is `undefined` and reading
`e.defaultPrevented` throws a TypeError, aborting the callback before the
`console.error` and `exit(code || 1)` lines can run.  The thrown TypeError
propagates into the promise library and has no further effect.  The
intended (unreachable) continuation is kept below the early return for
reference. -/
def rejectCb (code : JsVal) (err : String) (s : SentinelState) : SentinelState :=
  let eIsUndefined := true
  if eIsUndefined then s
  else exitCall (pushLog s (.errorLog err)) (jsOr code (.numV 1))

/-- Attach the decision callbacks of `processTerminationHandler`
(src/index.js:64-78) to `Promise.all` of the trigger's bucket concatenated
with the wildcard bucket.  If the aggregate is already settled the
callback runs immediately, otherwise the aggregation is parked until some
token settles (see `elapse`). -/
def attachAgg (name : String) (code : JsVal) (s : SentinelState) : SentinelState :=
  let toks := alistGet s.promises name ++ alistGet s.promises "any"
  match aggNow s toks with
  | .resolvedA => resolveCb code s
  | .rejectedA e => rejectCb code e s
  | .pendingA => { s with pendingAggs := s.pendingAggs ++ [⟨name, code, toks⟩] }

/-- The `this._firedMap[name] = true` step of `processTerminationHandler`
(src/index.js:62), as a set insertion. -/
def firedMapUpd (name : String) (s : SentinelState) : SentinelState :=
  { s with firedMap :=
      if s.firedMap.contains name then s.firedMap else s.firedMap ++ [name] }

/-- `processTerminationHandler(code)` (src/index.js:61-79), the closure
wired to `process.exit`, to each OS signal and to the domain error channel:
set `this._firedMap[name] = true`, emit `(name, name)` on the internal
emitter, then attach the termination decision to the aggregation. -/
def processTerminationHandler (name : String) (code : JsVal) (s : SentinelState) : SentinelState :=
  attachAgg name code (dispatchEmit name [.strV name] (firedMapUpd name s))

/-- `_addEventHandler(name, fn, opt_context)` (src/index.js:227-255):
create a deferred, push its promise into the `name` bucket, capture the
creation stack, and register the internal wrapper — with `onAny` for the
`'any'` name and `on(name, ...)` otherwise. -/
def addEventHandler (name : String) (uid : Nat) (b : HBehavior) (s : SentinelState) : SentinelState :=
  let rid := s.regs.length
  let reg : Reg :=
    { uid := uid, behavior := b, fired := false, defer := .pending,
      stack := stackStr rid, deadlines := [] }
  let s1 := { s with regs := s.regs ++ [reg], promises := pushBucket s.promises name rid }
  if name = "any" then { s1 with anyList := s1.anyList ++ [.wrapper rid] }
  else { s1 with onMap := pushBucket s1.onMap name (.wrapper rid) }

/-- `observe(name, fn, opt_context)` (src/index.js:167-172): if the name
is already in the fired map, call `fn` immediately with no arguments and
store nothing; otherwise register it.  (`opt_context` only selects `this`
inside `fn` and has no observable effect here.) -/
def observe (name : String) (uid : Nat) (b : HBehavior) (s : SentinelState) : SentinelState :=
  if s.firedMap.contains name then { s with calls := s.calls ++ [.bare uid] }
  else addEventHandler name uid b s

/-- `observeAny(fn, opt_context)` (src/index.js:179-184). -/
def observeAny (uid : Nat) (b : HBehavior) (s : SentinelState) : SentinelState :=
  if !s.firedMap.isEmpty then { s with calls := s.calls ++ [.bare uid] }
  else addEventHandler "any" uid b s

/-- `this._events.off(name, fn)` removes listeners identical to `fn`.
The sentinel registered the internal bound wrapper, never `fn` itself, so
no `wrapper` entry can match a user function. -/
def removeUserFn (es : List LEntry) (uid : Nat) : List LEntry :=
  es.filter (fun e =>
    match e with
    | .userFn u => !(u == uid)
    | .wrapper _ => true)

/-- `unobserve(name, fn)` (src/index.js:191-194): reset the promise bucket
of `name` to `[]` and ask the emitter to remove `fn`. -/
def unobserve (name : String) (uid : Nat) (s : SentinelState) : SentinelState :=
  { s with promises := alistSet s.promises name [],
           onMap := alistSet s.onMap name (removeUserFn (alistGet s.onMap name) uid) }

/-- `unobserveAny(fn)` (src/index.js:200-203). -/
def unobserveAny (uid : Nat) (s : SentinelState) : SentinelState :=
  { s with promises := alistSet s.promises "any" [],
           anyList := removeUserFn s.anyList uid }

/-- `emit(name, opt_preventDefault)` (src/index.js:211-218).  For
`name === 'any'` the source calls `this._events.emitAny(...)`, a method
that does not exist on `eventemitter2`, so a TypeError is thrown.
Otherwise the source calls `this._events.emit(name, opt_preventDefault)`
— note that only `opt_preventDefault` is forwarded as a listener
argument — and returns the aggregation to the caller (the sentinel itself
attaches no callbacks to it). -/
def emit (name : String) (pd : JsVal) (s : SentinelState) : Except Unit SentinelState :=
  if name = "any" then .error ()
  else .ok (dispatchEmit name [pd] s)

/-- `timeout` setter (src/index.js:134-136). -/
def setTimeoutVal (t : Nat) (s : SentinelState) : SentinelState :=
  { s with timeoutVal := t }

/-- `halting` getter (src/index.js:148-152):
`Object.keys(this._firedMap).length > 0`. -/
def halting (s : SentinelState) : Bool := !s.firedMap.isEmpty

/-- The timer armed by `defer.timeout(ms)`: at its deadline it rejects the
deferred with a timeout error if the deferred is still pending. -/
def fireTimer (t : Nat) (rid : Nat) (s : SentinelState) : SentinelState :=
  match s.regs.get? rid with
  | some r =>
    match r.defer with
    | .pending =>
      if r.deadlines.any (fun d => decide (d ≤ t)) then rejectDefer rid "timeout" s else s
    | _ => s
  | none => s

def fireDueTimers (t : Nat) (s : SentinelState) : SentinelState :=
  (List.range s.regs.length).foldl (fun s1 rid => fireTimer t rid s1) s

/-- Settle the parked aggregations whose tokens have since settled. -/
def processAggsAux : List PendingAgg → SentinelState → SentinelState
  | [], s => s
  | a :: rest, s =>
    match aggNow s a.toks with
    | .resolvedA => processAggsAux rest (resolveCb a.code s)
    | .rejectedA e => processAggsAux rest (rejectCb a.code e s)
    | .pendingA => processAggsAux rest { s with pendingAggs := s.pendingAggs ++ [a] }

def processPendingAggs (s : SentinelState) : SentinelState :=
  processAggsAux s.pendingAggs { s with pendingAggs := [] }

/-- Let logical time advance to `t`: due timers fire (rejecting stuck
deferreds and running their timeout callbacks), then aggregations whose
tokens have settled run their decision callbacks. -/
def elapse (t : Nat) (s : SentinelState) : SentinelState :=
  processPendingAggs (fireDueTimers t { s with now := t })

/-- The state right after `new ProcessSentinel()` (src/index.js:97-125):
empty tables, default timeout 3000, exit wrapper not yet consumed. -/
def initState : SentinelState :=
  { firedMap := [], regs := [], onMap := [], anyList := [], promises := [],
    events := [], eventCtr := 0, calls := [], logs := [],
    exitConsumed := false, exitCalls := [], timeoutVal := 3000, now := 0,
    pendingAggs := [] }

/-- Register the given behaviours for trigger `"t"`, in order, using the
registration index as the user-function identity. -/
def setupMany : List HBehavior → SentinelState → SentinelState
  | [], s => s
  | b :: bs, s => setupMany bs (observe "t" s.regs.length b s)

/-- One raising of the occasion `"t"`: either delivered from an external
source (through `processTerminationHandler`) or raised programmatically
via `emit`. -/
inductive Delivery where
  | ext : JsVal → Delivery
  | prog : JsVal → Delivery
deriving DecidableEq, Repr

def deliver1 : Delivery → SentinelState → SentinelState
  | .ext c, s => processTerminationHandler "t" c s
  | .prog pd, s =>
    match emit "t" pd s with
    | .ok s1 => s1
    | .error _ => s

def deliverSeq : List Delivery → SentinelState → SentinelState
  | [], s => s
  | d :: ds, s => deliverSeq ds (deliver1 d s)

/-- Number of recorded invocations of the user function `u`. -/
def countU (cs : List CallRecord) (u : Nat) : Nat :=
  cs.countP (fun c =>
    match c with
    | .withEvent u1 _ => u1 == u
    | .bare u1 => u1 == u)

/-- Iterated calls of the module-level exit wrapper. -/
def runExitCalls (codes : List JsVal) (s : SentinelState) : SentinelState :=
  codes.foldl exitCall s

/-- The wrapper entries `wrapper k, wrapper (k+1), ..., wrapper (k+n-1)`. -/
def wrapperRange : Nat → Nat → List LEntry
  | _, 0 => []
  | k, n + 1 => .wrapper k :: wrapperRange (k + 1) n

/-- The registration indices `k, k+1, ..., k+n-1`. -/
def ridRange : Nat → Nat → List Nat
  | _, 0 => []
  | k, n + 1 => k :: ridRange (k + 1) n

/-- The registration record `addEventHandler` creates at index `k`. -/
def freshReg (k : Nat) (b : HBehavior) : Reg :=
  { uid := k, behavior := b, fired := false, defer := .pending,
    stack := stackStr k, deadlines := [] }

/-- The registrations `setupMany` creates, starting at index `k`. -/
def mkRegs : Nat → List HBehavior → List Reg
  | _, [] => []
  | k, b :: bs =>
    { uid := k, behavior := b, fired := false, defer := .pending,
      stack := stackStr k, deadlines := [] } :: mkRegs (k + 1) bs

/-- The `fired` flag of registration `rid` (a missing index counts as
fired, i.e. inert). -/
def regFiredB (s : SentinelState) (rid : Nat) : Bool :=
  match s.regs.get? rid with
  | some r => r.fired
  | none => true

/-- The user function of registration `rid`. -/
def uidAtD (s : SentinelState) (rid : Nat) : Nat :=
  match s.regs.get? rid with
  | some r => r.uid
  | none => 0

/-- Every registration has fired (so a further delivery invokes nobody). -/
def allFired (s : SentinelState) : Prop := ∀ j, regFiredB s j = true

/-- The exit wrapper has not been called yet. -/
def exitIdle (s : SentinelState) : Prop :=
  s.exitConsumed = false ∧ s.exitCalls = []

/-- The real exit primitive has been invoked exactly once, with code 1. -/
def exitFired1 (s : SentinelState) : Prop :=
  s.exitConsumed = true ∧ s.exitCalls = [JsVal.numV 1]

/-- Either the primitive was never invoked, or exactly once with code 1. -/
def exitDich (s : SentinelState) : Prop := exitIdle s ∨ exitFired1 s

/-- How a handler behaviour settles its deferred during dispatch. -/
def deferMatches : HBehavior → DeferState → Prop
  | .hResolve _, .resolvedD _ => True
  | .hReject _ e, .rejectedD e1 => e1 = e
  | .hStall _, .pending => True
  | _, _ => False

/-- Registration `i` is a stuck handler whose timeout guard is due at
time `t`: still pending, with creation stack `sig` and some armed
deadline at or before `t`. -/
def regStallReady (s : SentinelState) (i : Nat) (sig : String) (t : Nat) : Prop :=
  ∃ r, s.regs.get? i = some r ∧ r.defer = .pending ∧ r.stack = sig ∧
    r.deadlines.any (fun d => decide (d ≤ t)) = true

/-- `t` agrees with `s` on everything except the console and the exit
wrapper (the only things `timeoutHandler` and the decision callbacks can
change). -/
def coreEq (s t : SentinelState) : Prop :=
  t.firedMap = s.firedMap ∧ t.regs = s.regs ∧ t.onMap = s.onMap ∧
  t.anyList = s.anyList ∧ t.promises = s.promises ∧ t.events = s.events ∧
  t.eventCtr = s.eventCtr ∧ t.calls = s.calls ∧ t.timeoutVal = s.timeoutVal ∧
  t.now = s.now ∧ t.pendingAggs = s.pendingAggs

/-- `t` agrees with `s` on the emitter tables, the fired map, the promise
buckets, the clock, the timeout setting, the parked aggregations and the
number of registrations (everything an internal wrapper run cannot
change). -/
def outerEq (s t : SentinelState) : Prop :=
  t.firedMap = s.firedMap ∧ t.onMap = s.onMap ∧ t.anyList = s.anyList ∧
  t.promises = s.promises ∧ t.timeoutVal = s.timeoutVal ∧ t.now = s.now ∧
  t.pendingAggs = s.pendingAggs ∧ t.regs.length = s.regs.length

/-- The identity of a registration that no state transition may change:
its user function, behaviour and creation stack. -/
def regSig (r : Reg) : Nat × HBehavior × String := (r.uid, r.behavior, r.stack)

/-! ## Basic lemmas about the building blocks -/

theorem updAt_length (rs : List Reg) (i : Nat) (f : Reg → Reg) :
    (updAt rs i f).length = rs.length := by
  induction rs generalizing i with
  | nil => rfl
  | cons r rest ih =>
    cases i with
    | zero => simp [updAt]
    | succ n => simp [updAt, ih]

theorem updAt_get_ne (rs : List Reg) (i j : Nat) (f : Reg → Reg) (h : j ≠ i) :
    (updAt rs i f).get? j = rs.get? j := by
  induction rs generalizing i j with
  | nil => rfl
  | cons r rest ih =>
    cases i with
    | zero =>
      cases j with
      | zero => exact absurd rfl h
      | succ m => simp [updAt]
    | succ n =>
      cases j with
      | zero => simp [updAt]
      | succ m =>
        simp only [updAt, List.get?]
        exact ih n m (fun hc => h (by rw [hc]))

theorem updAt_get_self (rs : List Reg) (i : Nat) (f : Reg → Reg) :
    (updAt rs i f).get? i = (rs.get? i).map f := by
  induction rs generalizing i with
  | nil => rfl
  | cons r rest ih =>
    cases i with
    | zero => simp [updAt]
    | succ n => simpa [updAt] using ih n

theorem contains_append_self (m : List String) (n : String) :
    (m ++ [n]).contains n = true := by
  induction m with
  | nil => simp
  | cons a rest ih => simp [ih]

theorem runExitCalls_consumed (codes : List JsVal) (s : SentinelState)
    (h : s.exitConsumed = true) : runExitCalls codes s = s := by
  induction codes with
  | nil => rfl
  | cons c rest ih =>
    have h1 : exitCall s c = s := by simp [exitCall, h]
    show runExitCalls rest (exitCall s c) = s
    rw [h1, ih]

/-! ## Closed scenario theorems for the claims settled by direct evaluation -/

/-- C1: the claim fails on the code.  A single handler for
`process::exit` calls `preventDefault()` on its event (the stored event is
vetoed) and resolves before the aggregation settles, yet the real
termination primitive IS invoked, with code 0: `Promise.all` fulfills with
the array of events, the callback's `e.defaultPrevented` is `undefined`,
and `exit(code || 0)` runs unconditionally. -/
theorem c1_exit_invoked_despite_veto :
    (processTerminationHandler "process::exit" .undef
        (observe "process::exit" 0 (.hResolve true) initState)).events =
      [⟨0, .strV "process::exit", true⟩] ∧
    (processTerminationHandler "process::exit" .undef
        (observe "process::exit" 0 (.hResolve true) initState)).exitCalls =
      [.numV 0] := by
  exact ⟨rfl, rfl⟩

/-- C2 counterexample: with two handlers registered for `"t"`, one
delivery creates TWO events (not exactly one), each handler is passed its
own event, and the first handler's veto is not visible on the second
handler's event. -/
theorem c2_counterexample_two_events_per_occasion :
    (processTerminationHandler "t" .undef
        (setupMany [.hResolve true, .hResolve false] initState)).eventCtr ≠ 1 ∧
    (processTerminationHandler "t" .undef
        (setupMany [.hResolve true, .hResolve false] initState)).events =
      [⟨0, .strV "t", true⟩, ⟨1, .strV "t", false⟩] ∧
    (processTerminationHandler "t" .undef
        (setupMany [.hResolve true, .hResolve false] initState)).calls =
      [.withEvent 0 0, .withEvent 1 1] := by
  refine ⟨by decide, rfl, rfl⟩

/-- C2 (amended): each handler invocation for an occasion creates its own
fresh `Event`; the two handlers receive distinct events carrying exactly
their own veto flag, so a veto set by one handler is not visible on the
event received by the other. -/
theorem c2_per_handler_events (v1 v2 : Bool) :
    (processTerminationHandler "t" .undef
        (setupMany [.hResolve v1, .hResolve v2] initState)).events =
      [⟨0, .strV "t", v1⟩, ⟨1, .strV "t", v2⟩] ∧
    (processTerminationHandler "t" .undef
        (setupMany [.hResolve v1, .hResolve v2] initState)).calls =
      [.withEvent 0 0, .withEvent 1 1] := by
  cases v1 <;> cases v2 <;> exact ⟨rfl, rfl⟩

/-- C3 counterexample: the first occurrence of trigger `"foo"` raised via
`emit` does NOT add the name to the fired map — `emit` only dispatches on
the emitter (src/index.js:211-218) — so `halting` stays false. -/
theorem c3_counterexample_emit_not_marked_fired :
    (match emit "foo" .undef initState with
     | .ok s => halting s
     | .error _ => true) = false := by
  exact rfl

/-- C7: the claim fails on the code.  A handler for `process::terminate`
calls `done(new Error("x"))`; the primitive is indeed invoked with code 1,
but via the `defer.timeout(...).then(null, timeoutHandler)` chain, so the
console shows the timeout-guard message (creation stack + current stack)
and NOT the error's message and stack: the aggregate's error callback
`function(err, e)` receives only `err`, and reading `e.defaultPrevented`
with `e === undefined` throws before `console.error` can run. -/
theorem c7_rejection_logs_timeout_message_not_error :
    (processTerminationHandler "process::terminate" .undef
        (observe "process::terminate" 0 (.hReject false "x") initState)).exitCalls =
      [.numV 1] ∧
    (processTerminationHandler "process::terminate" .undef
        (observe "process::terminate" 0 (.hReject false "x") initState)).logs =
      [.timeoutLog (stackStr 0) currentStackStr] := by
  exact ⟨rfl, rfl⟩

/-- C8: the claim fails on the code.  After `observe("t", f)` followed by
`unobserve("t", f)`, the pending-promise bucket for `"t"` is cleared, but
firing `"t"` STILL invokes `f`: the emitter holds the internal bound
wrapper, not `f`, so `off("t", f)` removes nothing. -/
theorem c8_unobserve_leaves_wrapper_registered :
    alistGet (unobserve "t" 7 (observe "t" 7 (.hResolve false) initState)).promises "t" = [] ∧
    (processTerminationHandler "t" .undef
        (unobserve "t" 7 (observe "t" 7 (.hResolve false) initState))).calls =
      [.withEvent 7 0] := by
  exact ⟨rfl, rfl⟩

/-- C9: the claim fails on the code.  `emit("t", true)` forwards only
`opt_preventDefault` through the emitter, so the wrapper of a handler
registered with `observe("t", ...)` binds it as `name` and binds
`opt_preventDefault` to `undefined`: the created event has target
`true` (the boolean, not `"t"`) and `defaultPrevented` is still false. -/
theorem c9_emit_loses_prevent_default :
    (match emit "t" (.boolV true) (observe "t" 0 (.hResolve false) initState) with
     | .ok s => s.events
     | .error _ => []) = [⟨0, .boolV true, false⟩] := by
  exact rfl

/-- C10: the real termination primitive is invoked at most once.  From the
initial state, any non-empty sequence of calls of the module-level exit
wrapper passes exactly the first code to the real primitive, and a further
call of the wrapper on the resulting state is a no-op. -/
theorem c10_exit_primitive_at_most_once (c : JsVal) (codes : List JsVal) (d : JsVal) :
    (runExitCalls (c :: codes) initState).exitCalls = [c] ∧
    exitCall (runExitCalls (c :: codes) initState) d = runExitCalls (c :: codes) initState := by
  have h1 : runExitCalls (c :: codes) initState
      = { initState with exitCalls := [c], exitConsumed := true } := by
    have h2 : runExitCalls (c :: codes) initState
        = runExitCalls codes (exitCall initState c) := rfl
    rw [h2, runExitCalls_consumed _ _ rfl]
    rfl
  constructor
  · rw [h1]
  · rw [h1]
    rfl

/-! ## Frame lemmas: console / exit-wrapper transitions -/

theorem coreEq_refl (s : SentinelState) : coreEq s s := by
  simp [coreEq]

theorem coreEq_trans {s t u : SentinelState} (h1 : coreEq s t) (h2 : coreEq t u) :
    coreEq s u := by
  obtain ⟨a1, a2, a3, a4, a5, a6, a7, a8, a9, a10, a11⟩ := h1
  obtain ⟨b1, b2, b3, b4, b5, b6, b7, b8, b9, b10, b11⟩ := h2
  exact ⟨b1.trans a1, b2.trans a2, b3.trans a3, b4.trans a4, b5.trans a5,
    b6.trans a6, b7.trans a7, b8.trans a8, b9.trans a9, b10.trans a10, b11.trans a11⟩

theorem coreEq_exitCall (s : SentinelState) (c : JsVal) : coreEq s (exitCall s c) := by
  unfold exitCall
  split <;> simp [coreEq]

theorem coreEq_pushLog (s : SentinelState) (l : LogLine) : coreEq s (pushLog s l) := by
  simp [coreEq, pushLog]

theorem coreEq_timeoutHandler (s : SentinelState) (sig : String) :
    coreEq s (timeoutHandler sig s) :=
  coreEq_trans (coreEq_pushLog s _) (coreEq_exitCall _ _)

theorem coreEq_iterTH (sig : String) (n : Nat) (s : SentinelState) :
    coreEq s (iterTimeoutHandler sig n s) := by
  induction n generalizing s with
  | zero => exact coreEq_refl s
  | succ m ih =>
    exact coreEq_trans (coreEq_timeoutHandler s sig) (ih (timeoutHandler sig s))

theorem resolveCb_eq (c : JsVal) (s : SentinelState) :
    resolveCb c s = exitCall s (jsOr c (.numV 0)) := rfl

theorem rejectCb_eq (c : JsVal) (e : String) (s : SentinelState) :
    rejectCb c e s = s := rfl

theorem coreEq_resolveCb (s : SentinelState) (c : JsVal) : coreEq s (resolveCb c s) := by
  rw [resolveCb_eq]
  exact coreEq_exitCall s _

theorem coreEq_outerEq {s t : SentinelState} (h : coreEq s t) : outerEq s t := by
  obtain ⟨a1, a2, a3, a4, a5, a6, a7, a8, a9, a10, a11⟩ := h
  exact ⟨a1, a3, a4, a5, a9, a10, a11, by rw [a2]⟩

theorem outerEq_refl (s : SentinelState) : outerEq s s := by
  simp [outerEq]

theorem outerEq_trans {s t u : SentinelState} (h1 : outerEq s t) (h2 : outerEq t u) :
    outerEq s u := by
  obtain ⟨a1, a2, a3, a4, a5, a6, a7, a8⟩ := h1
  obtain ⟨b1, b2, b3, b4, b5, b6, b7, b8⟩ := h2
  exact ⟨b1.trans a1, b2.trans a2, b3.trans a3, b4.trans a4, b5.trans a5,
    b6.trans a6, b7.trans a7, b8.trans a8⟩

/-! ## Frame lemmas: deferred settlement -/

theorem iterTH_regs (sig : String) (n : Nat) (s : SentinelState) :
    (iterTimeoutHandler sig n s).regs = s.regs := (coreEq_iterTH sig n s).2.1

theorem iterTH_calls (sig : String) (n : Nat) (s : SentinelState) :
    (iterTimeoutHandler sig n s).calls = s.calls :=
  (coreEq_iterTH sig n s).2.2.2.2.2.2.2.1

theorem resolveDefer_outer (rid eid : Nat) (s : SentinelState) :
    outerEq s (resolveDefer rid eid s) := by
  cases hg : s.regs.get? rid with
  | none =>
    simp only [resolveDefer, hg]
    exact outerEq_refl s
  | some r =>
    cases hd : r.defer with
    | pending =>
      simp only [resolveDefer, hg, hd]
      exact ⟨rfl, rfl, rfl, rfl, rfl, rfl, rfl, by simp [updAt_length]⟩
    | resolvedD e =>
      simp only [resolveDefer, hg, hd]
      exact outerEq_refl s
    | rejectedD e =>
      simp only [resolveDefer, hg, hd]
      exact outerEq_refl s

theorem resolveDefer_calls (rid eid : Nat) (s : SentinelState) :
    (resolveDefer rid eid s).calls = s.calls := by
  cases hg : s.regs.get? rid with
  | none => simp only [resolveDefer, hg]
  | some r =>
    cases hd : r.defer with
    | pending => simp only [resolveDefer, hg, hd]
    | resolvedD e => simp only [resolveDefer, hg, hd]
    | rejectedD e => simp only [resolveDefer, hg, hd]

theorem resolveDefer_get_ne (rid j eid : Nat) (s : SentinelState) (h : j ≠ rid) :
    (resolveDefer rid eid s).regs.get? j = s.regs.get? j := by
  cases hg : s.regs.get? rid with
  | none => simp only [resolveDefer, hg]
  | some r =>
    cases hd : r.defer with
    | pending =>
      simp only [resolveDefer, hg, hd]
      exact updAt_get_ne _ _ _ _ h
    | resolvedD e => simp only [resolveDefer, hg, hd]
    | rejectedD e => simp only [resolveDefer, hg, hd]

theorem resolveDefer_get_self (rid eid : Nat) (s : SentinelState) (r : Reg)
    (hg : s.regs.get? rid = some r) (hd : r.defer = .pending) :
    (resolveDefer rid eid s).regs.get? rid = some { r with defer := .resolvedD eid } := by
  simp only [resolveDefer, hg, hd]
  rw [updAt_get_self, hg]
  rfl

theorem rejectDefer_outer (rid : Nat) (e : String) (s : SentinelState) :
    outerEq s (rejectDefer rid e s) := by
  cases hg : s.regs.get? rid with
  | none =>
    simp only [rejectDefer, hg]
    exact outerEq_refl s
  | some r =>
    cases hd : r.defer with
    | pending =>
      simp only [rejectDefer, hg, hd]
      refine outerEq_trans ?_ (coreEq_outerEq (coreEq_iterTH _ _ _))
      exact ⟨rfl, rfl, rfl, rfl, rfl, rfl, rfl, by simp [updAt_length]⟩
    | resolvedD e2 =>
      simp only [rejectDefer, hg, hd]
      exact outerEq_refl s
    | rejectedD e2 =>
      simp only [rejectDefer, hg, hd]
      exact outerEq_refl s

theorem rejectDefer_calls (rid : Nat) (e : String) (s : SentinelState) :
    (rejectDefer rid e s).calls = s.calls := by
  cases hg : s.regs.get? rid with
  | none => simp only [rejectDefer, hg]
  | some r =>
    cases hd : r.defer with
    | pending =>
      simp only [rejectDefer, hg, hd]
      rw [iterTH_calls]
    | resolvedD e2 => simp only [rejectDefer, hg, hd]
    | rejectedD e2 => simp only [rejectDefer, hg, hd]

theorem rejectDefer_get_ne (rid j : Nat) (e : String) (s : SentinelState) (h : j ≠ rid) :
    (rejectDefer rid e s).regs.get? j = s.regs.get? j := by
  cases hg : s.regs.get? rid with
  | none => simp only [rejectDefer, hg]
  | some r =>
    cases hd : r.defer with
    | pending =>
      simp only [rejectDefer, hg, hd]
      rw [iterTH_regs]
      exact updAt_get_ne _ _ _ _ h
    | resolvedD e2 => simp only [rejectDefer, hg, hd]
    | rejectedD e2 => simp only [rejectDefer, hg, hd]

theorem rejectDefer_get_self (rid : Nat) (e : String) (s : SentinelState) (r : Reg)
    (hg : s.regs.get? rid = some r) (hd : r.defer = .pending) :
    (rejectDefer rid e s).regs.get? rid = some { r with defer := .rejectedD e } := by
  simp only [rejectDefer, hg, hd]
  rw [iterTH_regs]
  rw [updAt_get_self, hg]
  rfl

/-! ## Exit wrapper and console bookkeeping -/

theorem exitCall_logs (s : SentinelState) (c : JsVal) : (exitCall s c).logs = s.logs := by
  unfold exitCall
  split <;> rfl

theorem pushLog_logs (s : SentinelState) (l : LogLine) :
    (pushLog s l).logs = s.logs ++ [l] := rfl

theorem timeoutHandler_logs (sig : String) (s : SentinelState) :
    (timeoutHandler sig s).logs = s.logs ++ [.timeoutLog sig currentStackStr] := by
  unfold timeoutHandler
  rw [exitCall_logs, pushLog_logs]

theorem iterTH_logs_mono (sig : String) (n : Nat) (s : SentinelState) (l : LogLine)
    (h : l ∈ s.logs) : l ∈ (iterTimeoutHandler sig n s).logs := by
  induction n generalizing s with
  | zero => exact h
  | succ m ih =>
    show l ∈ (iterTimeoutHandler sig m (timeoutHandler sig s)).logs
    refine ih _ ?_
    rw [timeoutHandler_logs]
    exact List.mem_append_left _ h

theorem exitFired1_timeoutHandler (sig : String) (s : SentinelState)
    (h : exitFired1 s) : exitFired1 (timeoutHandler sig s) := by
  obtain ⟨h1, h2⟩ := h
  unfold timeoutHandler exitCall
  simp [pushLog, h1, exitFired1, h2]

theorem exitIdle_timeoutHandler (sig : String) (s : SentinelState)
    (h : exitIdle s) : exitFired1 (timeoutHandler sig s) := by
  obtain ⟨h1, h2⟩ := h
  unfold timeoutHandler exitCall
  simp [pushLog, h1, exitFired1, h2]

theorem exitDich_timeoutHandler (sig : String) (s : SentinelState)
    (h : exitDich s) : exitDich (timeoutHandler sig s) := by
  cases h with
  | inl h1 => exact Or.inr (exitIdle_timeoutHandler sig s h1)
  | inr h1 => exact Or.inr (exitFired1_timeoutHandler sig s h1)

theorem exitFired1_iterTH (sig : String) (n : Nat) (s : SentinelState)
    (h : exitFired1 s) : exitFired1 (iterTimeoutHandler sig n s) := by
  induction n generalizing s with
  | zero => exact h
  | succ m ih => exact ih _ (exitFired1_timeoutHandler sig s h)

theorem exitDich_iterTH (sig : String) (n : Nat) (s : SentinelState)
    (h : exitDich s) : exitDich (iterTimeoutHandler sig n s) := by
  induction n generalizing s with
  | zero => exact h
  | succ m ih => exact ih _ (exitDich_timeoutHandler sig s h)

theorem iterTH_fires (sig : String) (n : Nat) (s : SentinelState)
    (hd : exitDich s) (hn : 0 < n) :
    exitFired1 (iterTimeoutHandler sig n s) ∧
      LogLine.timeoutLog sig currentStackStr ∈ (iterTimeoutHandler sig n s).logs := by
  cases n with
  | zero => exact absurd hn (by simp)
  | succ m =>
    have hstep : exitFired1 (timeoutHandler sig s) := by
      cases hd with
      | inl h1 => exact exitIdle_timeoutHandler sig s h1
      | inr h1 => exact exitFired1_timeoutHandler sig s h1
    have hmem : LogLine.timeoutLog sig currentStackStr ∈ (timeoutHandler sig s).logs := by
      rw [timeoutHandler_logs]
      exact List.mem_append_right _ (List.mem_singleton.mpr rfl)
    exact ⟨exitFired1_iterTH sig m _ hstep, iterTH_logs_mono sig m _ _ hmem⟩

/-! ## Wrapper-run lemmas -/

theorem regFiredB_of_get_eq {s t : SentinelState} {j : Nat}
    (h : t.regs.get? j = s.regs.get? j) : regFiredB t j = regFiredB s j := by
  unfold regFiredB
  rw [h]

theorem uidAtD_of_get_eq {s t : SentinelState} {j : Nat}
    (h : t.regs.get? j = s.regs.get? j) : uidAtD t j = uidAtD s j := by
  unfold uidAtD
  rw [h]

theorem resolveDefer_fired (rid eid j : Nat) (s : SentinelState) :
    regFiredB (resolveDefer rid eid s) j = regFiredB s j := by
  by_cases hj : j = rid
  · subst hj
    cases hg : s.regs.get? j with
    | none => simp only [resolveDefer, hg]
    | some r =>
      cases hd : r.defer with
      | pending =>
        unfold regFiredB
        rw [resolveDefer_get_self j eid s r hg hd, hg]
      | resolvedD e => simp only [resolveDefer, hg, hd]
      | rejectedD e => simp only [resolveDefer, hg, hd]
  · exact regFiredB_of_get_eq (resolveDefer_get_ne rid j eid s hj)

theorem rejectDefer_fired (rid j : Nat) (e : String) (s : SentinelState) :
    regFiredB (rejectDefer rid e s) j = regFiredB s j := by
  by_cases hj : j = rid
  · subst hj
    cases hg : s.regs.get? j with
    | none => simp only [rejectDefer, hg]
    | some r =>
      cases hd : r.defer with
      | pending =>
        unfold regFiredB
        rw [rejectDefer_get_self j e s r hg hd, hg]
      | resolvedD e2 => simp only [rejectDefer, hg, hd]
      | rejectedD e2 => simp only [rejectDefer, hg, hd]
  · exact regFiredB_of_get_eq (rejectDefer_get_ne rid j e s hj)

theorem resolveDefer_sig (rid eid j : Nat) (s : SentinelState) :
    ((resolveDefer rid eid s).regs.get? j).map regSig = (s.regs.get? j).map regSig := by
  by_cases hj : j = rid
  · subst hj
    cases hg : s.regs.get? j with
    | none => simp only [resolveDefer, hg]
    | some r =>
      cases hd : r.defer with
      | pending =>
        rw [resolveDefer_get_self j eid s r hg hd]
        rfl
      | resolvedD e => simp only [resolveDefer, hg, hd]
      | rejectedD e => simp only [resolveDefer, hg, hd]
  · rw [resolveDefer_get_ne rid j eid s hj]

theorem rejectDefer_sig (rid j : Nat) (e : String) (s : SentinelState) :
    ((rejectDefer rid e s).regs.get? j).map regSig = (s.regs.get? j).map regSig := by
  by_cases hj : j = rid
  · subst hj
    cases hg : s.regs.get? j with
    | none => simp only [rejectDefer, hg]
    | some r =>
      cases hd : r.defer with
      | pending =>
        rw [rejectDefer_get_self j e s r hg hd]
        rfl
      | resolvedD e2 => simp only [rejectDefer, hg, hd]
      | rejectedD e2 => simp only [rejectDefer, hg, hd]
  · rw [rejectDefer_get_ne rid j e s hj]

theorem resolveDefer_exit (rid eid : Nat) (s : SentinelState) :
    (resolveDefer rid eid s).exitConsumed = s.exitConsumed ∧
    (resolveDefer rid eid s).exitCalls = s.exitCalls ∧
    (resolveDefer rid eid s).logs = s.logs := by
  refine ⟨?_, ?_, ?_⟩ <;>
    cases hg : s.regs.get? rid with
    | none => simp only [resolveDefer, hg]
    | some r => cases hd : r.defer <;> simp only [resolveDefer, hg, hd]

theorem exitDich_of_regs_update (s : SentinelState) (rs : List Reg)
    (h : exitDich s) : exitDich { s with regs := rs } := by
  cases h with
  | inl h1 => exact Or.inl ⟨h1.1, h1.2⟩
  | inr h1 => exact Or.inr ⟨h1.1, h1.2⟩

theorem exitDich_rejectDefer (rid : Nat) (e : String) (s : SentinelState)
    (h : exitDich s) : exitDich (rejectDefer rid e s) := by
  cases hg : s.regs.get? rid with
  | none => simpa only [rejectDefer, hg] using h
  | some r =>
    cases hd : r.defer with
    | pending =>
      simp only [rejectDefer, hg, hd]
      exact exitDich_iterTH _ _ _ (exitDich_of_regs_update s _ h)
    | resolvedD e2 => simpa only [rejectDefer, hg, hd] using h
    | rejectedD e2 => simpa only [rejectDefer, hg, hd] using h

theorem exitDich_resolveDefer (rid eid : Nat) (s : SentinelState)
    (h : exitDich s) : exitDich (resolveDefer rid eid s) := by
  obtain ⟨h1, h2, h3⟩ := resolveDefer_exit rid eid s
  cases h with
  | inl hi => exact Or.inl ⟨h1.trans hi.1, h2.trans hi.2⟩
  | inr hi => exact Or.inr ⟨h1.trans hi.1, h2.trans hi.2⟩

theorem runWrapper_outer (rid : Nat) (a1 a2 : JsVal) (s : SentinelState) :
    outerEq s (runWrapper rid a1 a2 s) := by
  cases hg : s.regs.get? rid with
  | none =>
    simp only [runWrapper, hg]
    exact outerEq_refl s
  | some r =>
    cases hf : r.fired with
    | true =>
      simp only [runWrapper, hg, hf, if_true]
      exact ⟨rfl, rfl, rfl, rfl, rfl, rfl, rfl, by simp [updAt_length]⟩
    | false =>
      cases hb : r.behavior with
      | hResolve v =>
        simp only [runWrapper, hg, hf, hb, Bool.false_eq_true, if_false]
        refine outerEq_trans ?_ (resolveDefer_outer _ _ _)
        exact ⟨rfl, rfl, rfl, rfl, rfl, rfl, rfl, by simp [updAt_length]⟩
      | hReject v e =>
        simp only [runWrapper, hg, hf, hb, Bool.false_eq_true, if_false]
        refine outerEq_trans ?_ (rejectDefer_outer _ _ _)
        exact ⟨rfl, rfl, rfl, rfl, rfl, rfl, rfl, by simp [updAt_length]⟩
      | hStall v =>
        simp only [runWrapper, hg, hf, hb, Bool.false_eq_true, if_false]
        exact ⟨rfl, rfl, rfl, rfl, rfl, rfl, rfl, by simp [updAt_length]⟩

theorem runWrapper_calls (rid : Nat) (a1 a2 : JsVal) (s : SentinelState) :
    (runWrapper rid a1 a2 s).calls
      = s.calls ++ (if regFiredB s rid then [] else [.withEvent (uidAtD s rid) s.eventCtr]) := by
  cases hg : s.regs.get? rid with
  | none =>
    simp only [runWrapper, regFiredB, hg, reduceIte]
    simp
  | some r =>
    cases hf : r.fired with
    | true =>
      simp only [runWrapper, regFiredB, hg, hf, if_true]
      simp
    | false =>
      cases hb : r.behavior with
      | hResolve v =>
        simp only [runWrapper, regFiredB, uidAtD, hg, hf, hb, Bool.false_eq_true, if_false, resolveDefer_calls]
      | hReject v e =>
        simp only [runWrapper, regFiredB, uidAtD, hg, hf, hb, Bool.false_eq_true, if_false, rejectDefer_calls]
      | hStall v =>
        simp only [runWrapper, regFiredB, uidAtD, hg, hf, hb, Bool.false_eq_true, if_false]

theorem runWrapper_get_ne (rid j : Nat) (a1 a2 : JsVal) (s : SentinelState) (hj : j ≠ rid) :
    (runWrapper rid a1 a2 s).regs.get? j = s.regs.get? j := by
  cases hg : s.regs.get? rid with
  | none => simp only [runWrapper, hg]
  | some r =>
    cases hf : r.fired with
    | true =>
      simp only [runWrapper, hg, hf, if_true]
      exact updAt_get_ne _ _ _ _ hj
    | false =>
      cases hb : r.behavior with
      | hResolve v =>
        simp only [runWrapper, hg, hf, hb, Bool.false_eq_true, if_false]
        rw [resolveDefer_get_ne _ _ _ _ hj, updAt_get_ne _ _ _ _ hj, updAt_get_ne _ _ _ _ hj]
      | hReject v e =>
        simp only [runWrapper, hg, hf, hb, Bool.false_eq_true, if_false]
        rw [rejectDefer_get_ne _ _ _ _ hj, updAt_get_ne _ _ _ _ hj, updAt_get_ne _ _ _ _ hj]
      | hStall v =>
        simp only [runWrapper, hg, hf, hb, Bool.false_eq_true, if_false]
        rw [updAt_get_ne _ _ _ _ hj, updAt_get_ne _ _ _ _ hj]

theorem runWrapper_fired_self (rid : Nat) (a1 a2 : JsVal) (s : SentinelState) :
    regFiredB (runWrapper rid a1 a2 s) rid = true := by
  cases hg : s.regs.get? rid with
  | none => simp only [runWrapper, regFiredB, hg]
  | some r =>
    cases hf : r.fired with
    | true =>
      simp only [runWrapper, regFiredB, hg, hf, if_true, updAt_get_self]
      exact hf
    | false =>
      cases hb : r.behavior with
      | hResolve v =>
        simp only [runWrapper, hg, hf, hb, Bool.false_eq_true, if_false]
        rw [resolveDefer_fired]
        simp only [regFiredB]
        rw [updAt_get_self, updAt_get_self, hg]
        rfl
      | hReject v e =>
        simp only [runWrapper, hg, hf, hb, Bool.false_eq_true, if_false]
        rw [rejectDefer_fired]
        simp only [regFiredB]
        rw [updAt_get_self, updAt_get_self, hg]
        rfl
      | hStall v =>
        simp only [runWrapper, hg, hf, hb, Bool.false_eq_true, if_false]
        simp only [regFiredB]
        rw [updAt_get_self, updAt_get_self, hg]
        rfl

theorem runWrapper_fired_mono (rid j : Nat) (a1 a2 : JsVal) (s : SentinelState)
    (h : regFiredB s j = true) : regFiredB (runWrapper rid a1 a2 s) j = true := by
  by_cases hj : j = rid
  · subst hj
    exact runWrapper_fired_self j a1 a2 s
  · rw [regFiredB_of_get_eq (runWrapper_get_ne rid j a1 a2 s hj)]
    exact h

theorem runWrapper_sig (rid j : Nat) (a1 a2 : JsVal) (s : SentinelState) :
    ((runWrapper rid a1 a2 s).regs.get? j).map regSig = (s.regs.get? j).map regSig := by
  by_cases hj : j = rid
  · subst hj
    cases hg : s.regs.get? j with
    | none => simp only [runWrapper, hg]
    | some r =>
      cases hf : r.fired with
      | true =>
        simp only [runWrapper, hg, hf, if_true, updAt_get_self, Option.map_some']
        rfl
      | false =>
        cases hb : r.behavior with
        | hResolve v =>
          simp only [runWrapper, hg, hf, hb, Bool.false_eq_true, if_false, resolveDefer_sig,
            updAt_get_self, Option.map_some']
          simp [regSig, hb]
        | hReject v e =>
          simp only [runWrapper, hg, hf, hb, Bool.false_eq_true, if_false, rejectDefer_sig,
            updAt_get_self, Option.map_some']
          simp [regSig, hb]
        | hStall v =>
          simp only [runWrapper, hg, hf, hb, Bool.false_eq_true, if_false, updAt_get_self, Option.map_some']
          simp [regSig, hb]
  · rw [runWrapper_get_ne rid j a1 a2 s hj]

theorem runWrapper_invoke_get_self (rid : Nat) (a1 a2 : JsVal) (s : SentinelState) (r : Reg)
    (hg : s.regs.get? rid = some r) (hf : r.fired = false) (hd : r.defer = .pending) :
    ∃ d, (runWrapper rid a1 a2 s).regs.get? rid =
        some { r with fired := true, deadlines := r.deadlines ++ [s.now + s.timeoutVal],
                      defer := d } ∧
      deferMatches r.behavior d := by
  have h3 : (updAt (updAt s.regs rid
        (fun q => { q with deadlines := q.deadlines ++ [s.now + s.timeoutVal] })) rid
        (fun q => { q with fired := true })).get? rid
      = some { r with fired := true, deadlines := r.deadlines ++ [s.now + s.timeoutVal] } := by
    rw [updAt_get_self, updAt_get_self, hg]
    rfl
  cases hb : r.behavior with
  | hResolve v =>
    refine ⟨.resolvedD s.eventCtr, ?_, trivial⟩
    simp only [runWrapper, hg, hf, hb, Bool.false_eq_true, if_false]
    rw [resolveDefer_get_self _ _ _
      ({ r with fired := true, deadlines := r.deadlines ++ [s.now + s.timeoutVal] }) h3 hd]
    rw [hb]
  | hReject v e =>
    refine ⟨.rejectedD e, ?_, rfl⟩
    simp only [runWrapper, hg, hf, hb, Bool.false_eq_true, if_false]
    rw [rejectDefer_get_self _ _ _
      ({ r with fired := true, deadlines := r.deadlines ++ [s.now + s.timeoutVal] }) h3 hd]
    rw [hb]
  | hStall v =>
    refine ⟨.pending, ?_, trivial⟩
    simp only [runWrapper, hg, hf, hb, Bool.false_eq_true, if_false]
    rw [h3, hd, hb]

theorem exitDich_runWrapper (rid : Nat) (a1 a2 : JsVal) (s : SentinelState)
    (h : exitDich s) : exitDich (runWrapper rid a1 a2 s) := by
  cases hg : s.regs.get? rid with
  | none => simpa only [runWrapper, hg] using h
  | some r =>
    cases hf : r.fired with
    | true =>
      simp only [runWrapper, hg, hf, if_true]
      exact exitDich_of_regs_update s _ h
    | false =>
      cases hb : r.behavior with
      | hResolve v =>
        simp only [runWrapper, hg, hf, hb, Bool.false_eq_true, if_false]
        refine exitDich_resolveDefer _ _ _ ?_
        cases h with
        | inl h1 => exact Or.inl ⟨h1.1, h1.2⟩
        | inr h1 => exact Or.inr ⟨h1.1, h1.2⟩
      | hReject v e =>
        simp only [runWrapper, hg, hf, hb, Bool.false_eq_true, if_false]
        refine exitDich_rejectDefer _ _ _ ?_
        cases h with
        | inl h1 => exact Or.inl ⟨h1.1, h1.2⟩
        | inr h1 => exact Or.inr ⟨h1.1, h1.2⟩
      | hStall v =>
        simp only [runWrapper, hg, hf, hb, Bool.false_eq_true, if_false]
        cases h with
        | inl h1 => exact Or.inl ⟨h1.1, h1.2⟩
        | inr h1 => exact Or.inr ⟨h1.1, h1.2⟩

/-! ## Listener-list dispatch lemmas -/

theorem outerEq_firedMap {s t : SentinelState} (h : outerEq s t) : t.firedMap = s.firedMap := h.1

theorem outerEq_onMap {s t : SentinelState} (h : outerEq s t) : t.onMap = s.onMap := h.2.1

theorem outerEq_anyList {s t : SentinelState} (h : outerEq s t) : t.anyList = s.anyList := h.2.2.1

theorem outerEq_promises {s t : SentinelState} (h : outerEq s t) : t.promises = s.promises :=
  h.2.2.2.1

theorem outerEq_timeoutVal {s t : SentinelState} (h : outerEq s t) : t.timeoutVal = s.timeoutVal :=
  h.2.2.2.2.1

theorem outerEq_now {s t : SentinelState} (h : outerEq s t) : t.now = s.now := h.2.2.2.2.2.1

theorem outerEq_pendingAggs {s t : SentinelState} (h : outerEq s t) :
    t.pendingAggs = s.pendingAggs := h.2.2.2.2.2.2.1

theorem outerEq_regsLength {s t : SentinelState} (h : outerEq s t) :
    t.regs.length = s.regs.length := h.2.2.2.2.2.2.2

theorem uidAtD_of_sig {s t : SentinelState} {j : Nat}
    (h : (t.regs.get? j).map regSig = (s.regs.get? j).map regSig) :
    uidAtD t j = uidAtD s j := by
  cases ht : t.regs.get? j with
  | none =>
    cases hs : s.regs.get? j with
    | none => simp only [uidAtD, ht, hs]
    | some r2 => rw [ht, hs] at h; simp at h
  | some r1 =>
    cases hs : s.regs.get? j with
    | none => rw [ht, hs] at h; simp at h
    | some r2 =>
      simp only [uidAtD, ht, hs]
      rw [ht, hs] at h
      simp only [Option.map_some', Option.some.injEq, regSig, Prod.mk.injEq] at h
      exact h.1

theorem runEntries_outer (a1 a2 : JsVal) (es : List LEntry) (s : SentinelState) :
    outerEq s (runEntries a1 a2 es s) := by
  induction es generalizing s with
  | nil => exact outerEq_refl s
  | cons e rest ih =>
    cases e with
    | wrapper rid =>
      exact outerEq_trans (runWrapper_outer rid a1 a2 s) (ih (runWrapper rid a1 a2 s))
    | userFn u => exact ih s

theorem runEntries_fired_mono (a1 a2 : JsVal) (es : List LEntry) (s : SentinelState) (j : Nat)
    (h : regFiredB s j = true) : regFiredB (runEntries a1 a2 es s) j = true := by
  induction es generalizing s with
  | nil => exact h
  | cons e rest ih =>
    cases e with
    | wrapper rid => exact ih (runWrapper rid a1 a2 s) (runWrapper_fired_mono rid j a1 a2 s h)
    | userFn u => exact ih s h

theorem runEntries_calls_of_fired (a1 a2 : JsVal) (es : List LEntry) (s : SentinelState)
    (h : ∀ j, regFiredB s j = true) : (runEntries a1 a2 es s).calls = s.calls := by
  induction es generalizing s with
  | nil => rfl
  | cons e rest ih =>
    cases e with
    | wrapper rid =>
      show (runEntries a1 a2 rest (runWrapper rid a1 a2 s)).calls = s.calls
      rw [ih (runWrapper rid a1 a2 s) (fun j => runWrapper_fired_mono rid j a1 a2 s (h j))]
      rw [runWrapper_calls, h rid]
      simp
    | userFn u => exact ih s h

theorem exitDich_runEntries (a1 a2 : JsVal) (es : List LEntry) (s : SentinelState)
    (h : exitDich s) : exitDich (runEntries a1 a2 es s) := by
  induction es generalizing s with
  | nil => exact h
  | cons e rest ih =>
    cases e with
    | wrapper rid => exact ih (runWrapper rid a1 a2 s) (exitDich_runWrapper rid a1 a2 s h)
    | userFn u => exact ih s h

theorem runEntries_wr_get_low (a1 a2 : JsVal) :
    ∀ (n k : Nat) (s : SentinelState) (j : Nat), j < k →
      (runEntries a1 a2 (wrapperRange k n) s).regs.get? j = s.regs.get? j := by
  intro n
  induction n with
  | zero => intro k s j h; rfl
  | succ m ih =>
    intro k s j h
    show (runEntries a1 a2 (wrapperRange (k + 1) m) (runWrapper k a1 a2 s)).regs.get? j
        = s.regs.get? j
    rw [ih (k + 1) (runWrapper k a1 a2 s) j (by omega),
      runWrapper_get_ne k j a1 a2 s (by omega)]

theorem countU_append (xs ys : List CallRecord) (u : Nat) :
    countU (xs ++ ys) u = countU xs u + countU ys u := by
  simp [countU, List.countP_append]

theorem countU_single (k e u : Nat) :
    countU [.withEvent k e] u = if k = u then 1 else 0 := by
  by_cases h : k = u <;> simp [countU, List.countP_cons, h]

theorem runEntries_wr_count (a1 a2 : JsVal) :
    ∀ (n k : Nat) (s : SentinelState) (u : Nat),
      (∀ j, k ≤ j → j < k + n → regFiredB s j = false) →
      (∀ j, k ≤ j → j < k + n → uidAtD s j = j) →
      countU (runEntries a1 a2 (wrapperRange k n) s).calls u
        = countU s.calls u + (if k ≤ u ∧ u < k + n then 1 else 0) := by
  intro n
  induction n with
  | zero =>
    intro k s u h1 h2
    have hc : ¬(k ≤ u ∧ u < k + 0) := by omega
    simp [wrapperRange, runEntries, hc]
  | succ m ih =>
    intro k s u h1 h2
    show countU (runEntries a1 a2 (wrapperRange (k + 1) m) (runWrapper k a1 a2 s)).calls u = _
    rw [ih (k + 1) (runWrapper k a1 a2 s) u
      (fun j hj1 hj2 => by
        rw [regFiredB_of_get_eq (runWrapper_get_ne k j a1 a2 s (by omega))]
        exact h1 j (by omega) (by omega))
      (fun j hj1 hj2 => by
        rw [uidAtD_of_sig (runWrapper_sig k j a1 a2 s)]
        exact h2 j (by omega) (by omega))]
    rw [runWrapper_calls, h1 k (Nat.le_refl k) (by omega), h2 k (Nat.le_refl k) (by omega)]
    simp only [Bool.false_eq_true, if_false, countU_append, countU_single]
    have harith : ∀ x : Nat,
        x + (if k = u then 1 else 0) + (if k + 1 ≤ u ∧ u < k + 1 + m then 1 else 0)
          = x + (if k ≤ u ∧ u < k + (m + 1) then 1 else 0) := by
      intro x
      split_ifs <;> omega
    exact harith (countU s.calls u)

theorem runEntries_wr_fired (a1 a2 : JsVal) :
    ∀ (n k : Nat) (s : SentinelState) (j : Nat), k ≤ j → j < k + n →
      regFiredB (runEntries a1 a2 (wrapperRange k n) s) j = true := by
  intro n
  induction n with
  | zero => intro k s j h1 h2; exact absurd h2 (by omega)
  | succ m ih =>
    intro k s j h1 h2
    show regFiredB (runEntries a1 a2 (wrapperRange (k + 1) m) (runWrapper k a1 a2 s)) j = true
    by_cases hj : j = k
    · subst hj
      exact runEntries_fired_mono a1 a2 _ _ j (runWrapper_fired_self j a1 a2 s)
    · exact ih (k + 1) (runWrapper k a1 a2 s) j (by omega) (by omega)

theorem runEntries_wr_invoke (a1 a2 : JsVal) :
    ∀ (n k : Nat) (s : SentinelState) (j : Nat) (r : Reg), k ≤ j → j < k + n →
      s.regs.get? j = some r → r.fired = false → r.defer = .pending →
      ∃ d, (runEntries a1 a2 (wrapperRange k n) s).regs.get? j =
          some { r with fired := true, deadlines := r.deadlines ++ [s.now + s.timeoutVal],
                        defer := d } ∧
        deferMatches r.behavior d := by
  intro n
  induction n with
  | zero => intro k s j r h1 h2 hg hf hd; exact absurd h2 (by omega)
  | succ m ih =>
    intro k s j r h1 h2 hg hf hd
    show ∃ d, (runEntries a1 a2 (wrapperRange (k + 1) m) (runWrapper k a1 a2 s)).regs.get? j = _ ∧ _
    by_cases hj : j = k
    · subst hj
      obtain ⟨d, hget, hdm⟩ := runWrapper_invoke_get_self j a1 a2 s r hg hf hd
      refine ⟨d, ?_, hdm⟩
      rw [runEntries_wr_get_low a1 a2 m (j + 1) (runWrapper j a1 a2 s) j (by omega), hget]
    · have hout := runWrapper_outer k a1 a2 s
      obtain ⟨d, hget, hdm⟩ := ih (k + 1) (runWrapper k a1 a2 s) j r (by omega) (by omega)
        (by rw [runWrapper_get_ne k j a1 a2 s hj]; exact hg) hf hd
      refine ⟨d, ?_, hdm⟩
      rw [hget, outerEq_now hout, outerEq_timeoutVal hout]

/-! ## Bucket and registration-template lemmas -/

theorem alistGet_alistSet_self {α : Type} (m : List (String × List α)) (k : String) (v : List α) :
    alistGet (alistSet m k v) k = v := by
  induction m with
  | nil => simp [alistGet, alistSet]
  | cons p rest ih =>
    obtain ⟨k1, v1⟩ := p
    by_cases h : k1 = k
    · simp [alistGet, alistSet, h]
    · simp [alistGet, alistSet, h, ih]

theorem alistGet_alistSet_ne {α : Type} (m : List (String × List α)) (k k1 : String) (v : List α)
    (h : k1 ≠ k) : alistGet (alistSet m k v) k1 = alistGet m k1 := by
  induction m with
  | nil =>
    simp only [alistSet, alistGet]
    rw [if_neg (Ne.symm h)]
  | cons p rest ih =>
    obtain ⟨k2, v2⟩ := p
    by_cases h2 : k2 = k
    · subst h2
      rw [show alistSet ((k2, v2) :: rest) k2 v = (k2, v) :: rest from by simp [alistSet]]
      simp only [alistGet]
      rw [if_neg (Ne.symm h), if_neg (Ne.symm h)]
    · simp only [alistSet, if_neg h2, alistGet]
      by_cases h3 : k2 = k1
      · rw [if_pos h3, if_pos h3]
      · rw [if_neg h3, if_neg h3, ih]

theorem pushBucket_self {α : Type} (m : List (String × List α)) (k : String) (x : α) :
    alistGet (pushBucket m k x) k = alistGet m k ++ [x] := by
  unfold pushBucket
  rw [alistGet_alistSet_self]

theorem pushBucket_ne {α : Type} (m : List (String × List α)) (k k1 : String) (x : α)
    (h : k1 ≠ k) : alistGet (pushBucket m k x) k1 = alistGet m k1 := by
  unfold pushBucket
  rw [alistGet_alistSet_ne _ _ _ _ h]

theorem mkRegs_get : ∀ (bs : List HBehavior) (k i : Nat),
    (mkRegs k bs).get? i = (bs.get? i).map (fun b => freshReg (k + i) b) := by
  intro bs
  induction bs with
  | nil => intro k i; rfl
  | cons b bs ih =>
    intro k i
    cases i with
    | zero => rfl
    | succ i2 =>
      show (mkRegs (k + 1) bs).get? i2 = _
      rw [ih (k + 1) i2]
      have h : k + 1 + i2 = k + (i2 + 1) := by omega
      rw [h]
      rfl

theorem mkRegs_length : ∀ (bs : List HBehavior) (k : Nat), (mkRegs k bs).length = bs.length := by
  intro bs
  induction bs with
  | nil => intro k; rfl
  | cons b bs ih => intro k; simp [mkRegs, ih]

theorem ridRange_mem : ∀ (n k j : Nat), k ≤ j → j < k + n → j ∈ ridRange k n := by
  intro n
  induction n with
  | zero => intro k j h1 h2; exact absurd h2 (by omega)
  | succ m ih =>
    intro k j h1 h2
    by_cases hj : j = k
    · subst hj
      exact List.mem_cons_self _ _
    · exact List.mem_cons_of_mem _ (ih (k + 1) j (by omega) (by omega))

/-! ## The state produced by `setupMany` -/

theorem observe_fresh (b : HBehavior) (s : SentinelState) (h : s.firedMap = []) :
    observe "t" s.regs.length b s =
      { s with
        regs := s.regs ++ [freshReg s.regs.length b],
        promises := pushBucket s.promises "t" s.regs.length,
        onMap := pushBucket s.onMap "t" (.wrapper s.regs.length) } := by
  have hc : s.firedMap.contains "t" = false := by rw [h]; rfl
  simp only [observe, hc, Bool.false_eq_true, if_false, addEventHandler, freshReg]
  rw [if_neg (show ¬("t" = "any") by decide)]

theorem setupMany_spec : ∀ (bs : List HBehavior) (s : SentinelState), s.firedMap = [] →
    (setupMany bs s).firedMap = [] ∧
    (setupMany bs s).regs = s.regs ++ mkRegs s.regs.length bs ∧
    alistGet (setupMany bs s).onMap "t"
      = alistGet s.onMap "t" ++ wrapperRange s.regs.length bs.length ∧
    (setupMany bs s).anyList = s.anyList ∧
    alistGet (setupMany bs s).promises "t"
      = alistGet s.promises "t" ++ ridRange s.regs.length bs.length ∧
    alistGet (setupMany bs s).promises "any" = alistGet s.promises "any" ∧
    (setupMany bs s).calls = s.calls ∧
    (setupMany bs s).eventCtr = s.eventCtr ∧
    (setupMany bs s).logs = s.logs ∧
    (setupMany bs s).exitConsumed = s.exitConsumed ∧
    (setupMany bs s).exitCalls = s.exitCalls ∧
    (setupMany bs s).timeoutVal = s.timeoutVal ∧
    (setupMany bs s).now = s.now ∧
    (setupMany bs s).pendingAggs = s.pendingAggs := by
  intro bs
  induction bs with
  | nil =>
    intro s h
    refine ⟨h, by simp [setupMany, mkRegs], by simp [setupMany, wrapperRange], rfl,
      by simp [setupMany, ridRange], rfl, rfl, rfl, rfl, rfl, rfl, rfl, rfl, rfl⟩
  | cons b bs ih =>
    intro s h
    rw [show setupMany (b :: bs) s = setupMany bs (observe "t" s.regs.length b s) from rfl,
      observe_fresh b s h]
    have hlen : (s.regs ++ [freshReg s.regs.length b]).length = s.regs.length + 1 := by simp
    obtain ⟨c1, c2, c3, c4, c5, c6, c7, c8, c9, c10, c11, c12, c13, c14⟩ :=
      ih { s with
        regs := s.regs ++ [freshReg s.regs.length b],
        promises := pushBucket s.promises "t" s.regs.length,
        onMap := pushBucket s.onMap "t" (.wrapper s.regs.length) } h
    refine ⟨c1, ?_, ?_, c4, ?_, ?_, c7, c8, c9, c10, c11, c12, c13, c14⟩
    · rw [c2]
      show (s.regs ++ [freshReg s.regs.length b])
          ++ mkRegs (s.regs ++ [freshReg s.regs.length b]).length bs
        = s.regs ++ mkRegs s.regs.length (b :: bs)
      rw [hlen, List.append_assoc]
      rfl
    · rw [c3]
      show alistGet (pushBucket s.onMap "t" (.wrapper s.regs.length)) "t"
          ++ wrapperRange (s.regs ++ [freshReg s.regs.length b]).length bs.length
        = alistGet s.onMap "t" ++ wrapperRange s.regs.length (b :: bs).length
      rw [hlen, pushBucket_self, List.append_assoc]
      rfl
    · rw [c5]
      show alistGet (pushBucket s.promises "t" s.regs.length) "t"
          ++ ridRange (s.regs ++ [freshReg s.regs.length b]).length bs.length
        = alistGet s.promises "t" ++ ridRange s.regs.length (b :: bs).length
      rw [hlen, pushBucket_self, List.append_assoc]
      rfl
    · rw [c6]
      show alistGet (pushBucket s.promises "t" s.regs.length) "any" = alistGet s.promises "any"
      rw [pushBucket_ne _ _ _ _ (show ("any" : String) ≠ "t" by decide)]

/-! ## Aggregation attachment lemmas -/

theorem exitCall_calls (s : SentinelState) (c : JsVal) : (exitCall s c).calls = s.calls :=
  (coreEq_exitCall s c).2.2.2.2.2.2.2.1

theorem exitCall_regs (s : SentinelState) (c : JsVal) : (exitCall s c).regs = s.regs :=
  (coreEq_exitCall s c).2.1

theorem exitCall_firedMap (s : SentinelState) (c : JsVal) :
    (exitCall s c).firedMap = s.firedMap := (coreEq_exitCall s c).1

theorem attachAgg_calls (name : String) (c : JsVal) (s : SentinelState) :
    (attachAgg name c s).calls = s.calls := by
  cases hA : aggNow s (alistGet s.promises name ++ alistGet s.promises "any") with
  | resolvedA =>
    simp only [attachAgg, hA, resolveCb_eq]
    exact exitCall_calls _ _
  | rejectedA e => simp only [attachAgg, hA, rejectCb_eq]
  | pendingA => simp only [attachAgg, hA]

theorem attachAgg_regs (name : String) (c : JsVal) (s : SentinelState) :
    (attachAgg name c s).regs = s.regs := by
  cases hA : aggNow s (alistGet s.promises name ++ alistGet s.promises "any") with
  | resolvedA =>
    simp only [attachAgg, hA, resolveCb_eq]
    exact exitCall_regs _ _
  | rejectedA e => simp only [attachAgg, hA, rejectCb_eq]
  | pendingA => simp only [attachAgg, hA]

theorem attachAgg_firedMap (name : String) (c : JsVal) (s : SentinelState) :
    (attachAgg name c s).firedMap = s.firedMap := by
  cases hA : aggNow s (alistGet s.promises name ++ alistGet s.promises "any") with
  | resolvedA =>
    simp only [attachAgg, hA, resolveCb_eq]
    exact exitCall_firedMap _ _
  | rejectedA e => simp only [attachAgg, hA, rejectCb_eq]
  | pendingA => simp only [attachAgg, hA]

theorem attachAgg_logs (name : String) (c : JsVal) (s : SentinelState) :
    (attachAgg name c s).logs = s.logs := by
  cases hA : aggNow s (alistGet s.promises name ++ alistGet s.promises "any") with
  | resolvedA =>
    simp only [attachAgg, hA, resolveCb_eq]
    exact exitCall_logs _ _
  | rejectedA e => simp only [attachAgg, hA, rejectCb_eq]
  | pendingA => simp only [attachAgg, hA]

theorem attachAgg_exit_of_pending_tok (name : String) (c : JsVal) (s : SentinelState)
    (hp : ∃ rid ∈ alistGet s.promises name ++ alistGet s.promises "any",
      isResolvedTok s rid = false) :
    (attachAgg name c s).exitConsumed = s.exitConsumed ∧
    (attachAgg name c s).exitCalls = s.exitCalls := by
  cases hA : aggNow s (alistGet s.promises name ++ alistGet s.promises "any") with
  | resolvedA =>
    exfalso
    have hall : (alistGet s.promises name ++ alistGet s.promises "any").all (isResolvedTok s)
        = true := by
      unfold aggNow at hA
      cases hfr : firstRejected s (alistGet s.promises name ++ alistGet s.promises "any") with
      | some e =>
        rw [hfr] at hA
        exact AggRes.noConfusion hA
      | none =>
        rw [hfr] at hA
        by_cases hb : (alistGet s.promises name ++ alistGet s.promises "any").all
            (isResolvedTok s) = true
        · exact hb
        · rw [if_neg hb] at hA
          exact AggRes.noConfusion hA
    obtain ⟨rid, hmem, hfalse⟩ := hp
    rw [List.all_eq_true.mp hall rid hmem] at hfalse
    exact Bool.noConfusion hfalse
  | rejectedA e =>
    refine ⟨?_, ?_⟩ <;> simp only [attachAgg, hA, rejectCb_eq]
  | pendingA =>
    refine ⟨?_, ?_⟩ <;> simp only [attachAgg, hA]

/-! ## Decomposition of a full external delivery -/

theorem pth_firedMap (name : String) (code : JsVal) (s : SentinelState) :
    (processTerminationHandler name code s).firedMap
      = (if s.firedMap.contains name then s.firedMap else s.firedMap ++ [name]) := by
  simp only [processTerminationHandler, dispatchEmit]
  rw [attachAgg_firedMap, outerEq_firedMap (runEntries_outer _ _ _ _),
    outerEq_firedMap (runEntries_outer _ _ _ _)]
  rfl

theorem contains_ne_nil {m : List String} {n : String} (h : m.contains n = true) :
    m.isEmpty = false := by
  cases m with
  | nil => exact Bool.noConfusion h
  | cons a l => rfl

/-- C3 (amended): an occasion delivered from an external source — through
`processTerminationHandler`, i.e. an intercepted `process.exit`, an OS
signal or a domain error — always puts the trigger name into the fired
map, after which the `halting` getter returns true.  (An occasion raised
via `emit` does not touch the fired map; see the counterexample.) -/
theorem c3_external_delivery_marks_fired (name : String) (code : JsVal) (s : SentinelState) :
    (processTerminationHandler name code s).firedMap.contains name = true ∧
    halting (processTerminationHandler name code s) = true := by
  have hc : (processTerminationHandler name code s).firedMap.contains name = true := by
    rw [pth_firedMap]
    by_cases h : s.firedMap.contains name = true
    · rw [if_pos h]
      exact h
    · rw [if_neg h]
      exact contains_append_self _ _
  refine ⟨hc, ?_⟩
  unfold halting
  rw [contains_ne_nil hc]
  rfl

/-- C5: the late-registration fast path.  If the name is already in the
fired map, `observe` invokes the handler immediately, exactly once, with
no event and no completion callback (recorded as a `bare` call), and the
state is otherwise unchanged — no registration, no promise, no listener is
stored.  `observeAny` behaves the same once any trigger has fired. -/
theorem c5_late_registration_fast_path (s : SentinelState) (name : String)
    (uid1 uid2 : Nat) (b1 b2 : HBehavior) (h : s.firedMap.contains name = true) :
    observe name uid1 b1 s = { s with calls := s.calls ++ [.bare uid1] } ∧
    observeAny uid2 b2 s = { s with calls := s.calls ++ [.bare uid2] } := by
  constructor
  · simp only [observe, h, if_true]
  · simp only [observeAny, contains_ne_nil h]
    rfl

theorem c5_witness :
    (({ initState with firedMap := ["x"] } : SentinelState).firedMap.contains "x" = true) ∧
    (observe "x" 5 (.hResolve false) { initState with firedMap := ["x"] }
      = { ({ initState with firedMap := ["x"] } : SentinelState) with
          calls := ({ initState with firedMap := ["x"] } : SentinelState).calls
            ++ [.bare 5] }) ∧
    (observeAny 6 (.hStall true) { initState with firedMap := ["x"] }
      = { ({ initState with firedMap := ["x"] } : SentinelState) with
          calls := ({ initState with firedMap := ["x"] } : SentinelState).calls
            ++ [.bare 6] }) := by
  refine ⟨by decide, ?_, ?_⟩
  · exact (c5_late_registration_fast_path { initState with firedMap := ["x"] } "x"
      5 6 (.hResolve false) (.hStall true) (by decide)).1
  · exact (c5_late_registration_fast_path { initState with firedMap := ["x"] } "x"
      5 6 (.hResolve false) (.hStall true) (by decide)).2

/-! ## One delivery on a freshly set up sentinel -/

theorem regFiredB_none {s : SentinelState} {j : Nat} (h : s.regs.get? j = none) :
    regFiredB s j = true := by
  unfold regFiredB
  rw [h]

theorem regFiredB_some {s : SentinelState} {j : Nat} {r : Reg} (h : s.regs.get? j = some r) :
    regFiredB s j = r.fired := by
  unfold regFiredB
  rw [h]

theorem uidAtD_some {s : SentinelState} {j : Nat} {r : Reg} (h : s.regs.get? j = some r) :
    uidAtD s j = r.uid := by
  unfold uidAtD
  rw [h]

theorem regFiredB_congr_regs {s t : SentinelState} (h : t.regs = s.regs) (j : Nat) :
    regFiredB t j = regFiredB s j := by
  unfold regFiredB
  rw [h]

theorem dispatch_on_setup_state (bs : List HBehavior) (args : List JsVal) (s : SentinelState)
    (hregs : s.regs = mkRegs 0 bs)
    (hon : alistGet s.onMap "t" = wrapperRange 0 bs.length)
    (hany : s.anyList = [])
    (hcalls : s.calls = []) :
    (∀ u, u < bs.length → countU (dispatchEmit "t" args s).calls u = 1) ∧
    (∀ j, regFiredB (dispatchEmit "t" args s) j = true) := by
  have hlen : s.regs.length = bs.length := by rw [hregs, mkRegs_length]
  have hfresh : ∀ j, j < bs.length → ∃ b, bs.get? j = some b ∧
      s.regs.get? j = some (freshReg j b) := by
    intro j hj
    cases hb : bs.get? j with
    | none =>
      rw [List.get?_eq_none] at hb
      exact absurd hj (by omega)
    | some b =>
      refine ⟨b, rfl, ?_⟩
      rw [hregs, mkRegs_get, hb]
      simp [Nat.zero_add]
  have hf0 : ∀ j, 0 ≤ j → j < 0 + bs.length → regFiredB s j = false := by
    intro j h1 h2
    obtain ⟨b, _, hg⟩ := hfresh j (by omega)
    rw [regFiredB_some hg]
    rfl
  have hu0 : ∀ j, 0 ≤ j → j < 0 + bs.length → uidAtD s j = j := by
    intro j h1 h2
    obtain ⟨b, _, hg⟩ := hfresh j (by omega)
    rw [uidAtD_some hg]
    rfl
  simp only [dispatchEmit]
  rw [hon]
  have hanyX : (runEntries (args.getD 0 .undef) (args.getD 1 .undef)
      (wrapperRange 0 bs.length) s).anyList = [] := by
    rw [outerEq_anyList (runEntries_outer _ _ _ _), hany]
  rw [hanyX]
  constructor
  · intro u hu
    show countU (runEntries (args.getD 0 .undef) (args.getD 1 .undef)
      (wrapperRange 0 bs.length) s).calls u = 1
    rw [runEntries_wr_count _ _ bs.length 0 s u hf0 hu0, hcalls]
    rw [if_pos (show (0 ≤ u ∧ u < 0 + bs.length) by omega)]
    simp [countU]
  · intro j
    show regFiredB (runEntries (args.getD 0 .undef) (args.getD 1 .undef)
      (wrapperRange 0 bs.length) s) j = true
    by_cases hj : j < bs.length
    · exact runEntries_wr_fired _ _ bs.length 0 s j (by omega) (by omega)
    · refine regFiredB_none (List.get?_eq_none.mpr ?_)
      rw [outerEq_regsLength (runEntries_outer _ _ _ _), hlen]
      omega

theorem dispatch_calls_of_fired (name : String) (args : List JsVal) (s : SentinelState)
    (h : ∀ j, regFiredB s j = true) :
    (dispatchEmit name args s).calls = s.calls ∧
    (∀ j, regFiredB (dispatchEmit name args s) j = true) := by
  simp only [dispatchEmit]
  have hX : ∀ j, regFiredB (runEntries (args.getD 0 .undef) (args.getD 1 .undef)
      (alistGet s.onMap name) s) j = true :=
    fun j => runEntries_fired_mono _ _ _ _ j (h j)
  constructor
  · rw [runEntries_calls_of_fired _ _ _ _ hX, runEntries_calls_of_fired _ _ _ _ h]
  · intro j
    exact runEntries_fired_mono _ _ _ _ j (hX j)

theorem deliver1_setup (bs : List HBehavior) (d : Delivery) :
    (∀ u, u < bs.length → countU (deliver1 d (setupMany bs initState)).calls u = 1) ∧
    (∀ j, regFiredB (deliver1 d (setupMany bs initState)) j = true) := by
  obtain ⟨s1, s2, s3, s4, s5, s6, s7, s8, s9, s10, s11, s12, s13, s14⟩ :=
    setupMany_spec bs initState rfl
  cases d with
  | ext c =>
    show (∀ u, u < bs.length → countU (processTerminationHandler "t" c
        (setupMany bs initState)).calls u = 1) ∧
      (∀ j, regFiredB (processTerminationHandler "t" c (setupMany bs initState)) j = true)
    simp only [processTerminationHandler]
    obtain ⟨hcount, hfired⟩ := dispatch_on_setup_state bs [.strV "t"]
      { setupMany bs initState with firedMap :=
          if (setupMany bs initState).firedMap.contains "t" then
            (setupMany bs initState).firedMap
          else (setupMany bs initState).firedMap ++ ["t"] }
      s2 s3 s4 s7
    constructor
    · intro u hu
      rw [attachAgg_calls]
      exact hcount u hu
    · intro j
      rw [regFiredB_congr_regs (attachAgg_regs _ _ _) j]
      exact hfired j
  | prog pd =>
    show (∀ u, u < bs.length → countU (dispatchEmit "t" [pd]
        (setupMany bs initState)).calls u = 1) ∧
      (∀ j, regFiredB (dispatchEmit "t" [pd] (setupMany bs initState)) j = true)
    exact dispatch_on_setup_state bs [pd] (setupMany bs initState) s2 s3 s4 s7

theorem deliver1_calls_of_fired (d : Delivery) (s : SentinelState)
    (h : ∀ j, regFiredB s j = true) :
    (deliver1 d s).calls = s.calls ∧ (∀ j, regFiredB (deliver1 d s) j = true) := by
  cases d with
  | ext c =>
    show (processTerminationHandler "t" c s).calls = s.calls ∧
      (∀ j, regFiredB (processTerminationHandler "t" c s) j = true)
    simp only [processTerminationHandler]
    obtain ⟨hc1, hf1⟩ := dispatch_calls_of_fired "t" [.strV "t"]
      { s with firedMap :=
          if s.firedMap.contains "t" then s.firedMap else s.firedMap ++ ["t"] }
      (fun j => h j)
    constructor
    · rw [attachAgg_calls]
      exact hc1
    · intro j
      rw [regFiredB_congr_regs (attachAgg_regs _ _ _) j]
      exact hf1 j
  | prog pd =>
    show (dispatchEmit "t" [pd] s).calls = s.calls ∧
      (∀ j, regFiredB (dispatchEmit "t" [pd] s) j = true)
    exact dispatch_calls_of_fired "t" [pd] s h

theorem deliverSeq_calls_of_fired (ds : List Delivery) (s : SentinelState)
    (h : ∀ j, regFiredB s j = true) : (deliverSeq ds s).calls = s.calls := by
  induction ds generalizing s with
  | nil => rfl
  | cons d rest ih =>
    show (deliverSeq rest (deliver1 d s)).calls = s.calls
    obtain ⟨hc, hf⟩ := deliver1_calls_of_fired d s h
    rw [ih (deliver1 d s) hf, hc]

/-- C4: a handler registered for trigger `"t"` before its first occurrence
is invoked exactly once, no matter how many times and through which
channels the occasion is subsequently raised — externally (through
`processTerminationHandler`) or programmatically (via `emit`) in any
combination.  The closure-captured `fired` flag of the wrapper blocks
every re-invocation. -/
theorem c4_handler_invoked_exactly_once (bs : List HBehavior) (ds : List Delivery) (u : Nat)
    (hds : ds ≠ []) (hu : u < bs.length) :
    countU (deliverSeq ds (setupMany bs initState)).calls u = 1 := by
  cases ds with
  | nil => exact absurd rfl hds
  | cons d rest =>
    show countU (deliverSeq rest (deliver1 d (setupMany bs initState))).calls u = 1
    obtain ⟨hcount, hfired⟩ := deliver1_setup bs d
    rw [deliverSeq_calls_of_fired rest _ hfired]
    exact hcount u hu

theorem c4_witness :
    ([Delivery.ext .undef, Delivery.prog .undef, Delivery.ext (.numV 3)] ≠
      ([] : List Delivery)) ∧
    1 < ([HBehavior.hResolve false, HBehavior.hStall true] : List HBehavior).length ∧
    countU (deliverSeq [Delivery.ext .undef, Delivery.prog .undef, Delivery.ext (.numV 3)]
      (setupMany [HBehavior.hResolve false, HBehavior.hStall true] initState)).calls 1 = 1 := by
  refine ⟨by decide, by decide, ?_⟩
  exact c4_handler_invoked_exactly_once [HBehavior.hResolve false, HBehavior.hStall true]
    [Delivery.ext .undef, Delivery.prog .undef, Delivery.ext (.numV 3)] 1
    (by decide) (by decide)

/-! ## Timeout-guard firing lemmas -/

theorem rejectDefer_logs_mono (rid : Nat) (e : String) (s : SentinelState) (l : LogLine)
    (h : l ∈ s.logs) : l ∈ (rejectDefer rid e s).logs := by
  cases hg : s.regs.get? rid with
  | none => simpa only [rejectDefer, hg] using h
  | some r =>
    cases hd : r.defer with
    | pending =>
      simp only [rejectDefer, hg, hd]
      exact iterTH_logs_mono _ _ _ _ h
    | resolvedD e2 => simpa only [rejectDefer, hg, hd] using h
    | rejectedD e2 => simpa only [rejectDefer, hg, hd] using h

theorem fireTimer_logs_mono (t rid : Nat) (s : SentinelState) (l : LogLine)
    (h : l ∈ s.logs) : l ∈ (fireTimer t rid s).logs := by
  cases hg : s.regs.get? rid with
  | none => simpa only [fireTimer, hg] using h
  | some r =>
    cases hd : r.defer with
    | pending =>
      simp only [fireTimer, hg, hd]
      by_cases hdue : r.deadlines.any (fun d => decide (d ≤ t)) = true
      · rw [if_pos hdue]
        exact rejectDefer_logs_mono _ _ _ _ h
      · rw [if_neg hdue]
        exact h
    | resolvedD e2 => simpa only [fireTimer, hg, hd] using h
    | rejectedD e2 => simpa only [fireTimer, hg, hd] using h

theorem exitFired1_rejectDefer (rid : Nat) (e : String) (s : SentinelState)
    (h : exitFired1 s) : exitFired1 (rejectDefer rid e s) := by
  cases hg : s.regs.get? rid with
  | none => simpa only [rejectDefer, hg] using h
  | some r =>
    cases hd : r.defer with
    | pending =>
      simp only [rejectDefer, hg, hd]
      exact exitFired1_iterTH _ _ _ ⟨h.1, h.2⟩
    | resolvedD e2 => simpa only [rejectDefer, hg, hd] using h
    | rejectedD e2 => simpa only [rejectDefer, hg, hd] using h

theorem exitFired1_fireTimer (t rid : Nat) (s : SentinelState)
    (h : exitFired1 s) : exitFired1 (fireTimer t rid s) := by
  cases hg : s.regs.get? rid with
  | none => simpa only [fireTimer, hg] using h
  | some r =>
    cases hd : r.defer with
    | pending =>
      simp only [fireTimer, hg, hd]
      by_cases hdue : r.deadlines.any (fun d => decide (d ≤ t)) = true
      · rw [if_pos hdue]
        exact exitFired1_rejectDefer _ _ _ h
      · rw [if_neg hdue]
        exact h
    | resolvedD e2 => simpa only [fireTimer, hg, hd] using h
    | rejectedD e2 => simpa only [fireTimer, hg, hd] using h

theorem exitDich_fireTimer (t rid : Nat) (s : SentinelState)
    (h : exitDich s) : exitDich (fireTimer t rid s) := by
  cases hg : s.regs.get? rid with
  | none => simpa only [fireTimer, hg] using h
  | some r =>
    cases hd : r.defer with
    | pending =>
      simp only [fireTimer, hg, hd]
      by_cases hdue : r.deadlines.any (fun d => decide (d ≤ t)) = true
      · rw [if_pos hdue]
        exact exitDich_rejectDefer _ _ _ h
      · rw [if_neg hdue]
        exact h
    | resolvedD e2 => simpa only [fireTimer, hg, hd] using h
    | rejectedD e2 => simpa only [fireTimer, hg, hd] using h

theorem fireTimer_get_ne (t rid j : Nat) (s : SentinelState) (hj : j ≠ rid) :
    (fireTimer t rid s).regs.get? j = s.regs.get? j := by
  cases hg : s.regs.get? rid with
  | none => simp only [fireTimer, hg]
  | some r =>
    cases hd : r.defer with
    | pending =>
      simp only [fireTimer, hg, hd]
      by_cases hdue : r.deadlines.any (fun d => decide (d ≤ t)) = true
      · rw [if_pos hdue]
        exact rejectDefer_get_ne _ _ _ _ hj
      · rw [if_neg hdue]
    | resolvedD e2 => simp only [fireTimer, hg, hd]
    | rejectedD e2 => simp only [fireTimer, hg, hd]

theorem regStallReady_fireTimer_ne (t rid i : Nat) (sig : String) (s : SentinelState)
    (hne : i ≠ rid) (hr : regStallReady s i sig t) :
    regStallReady (fireTimer t rid s) i sig t := by
  obtain ⟨r, hg, hp, hs, hdue⟩ := hr
  exact ⟨r, by rw [fireTimer_get_ne t rid i s hne]; exact hg, hp, hs, hdue⟩

theorem fireTimer_ready (t i : Nat) (sig : String) (s : SentinelState)
    (hr : regStallReady s i sig t) (hdich : exitDich s) :
    exitFired1 (fireTimer t i s) ∧
    LogLine.timeoutLog sig currentStackStr ∈ (fireTimer t i s).logs := by
  obtain ⟨r, hg, hp, hs, hdue⟩ := hr
  simp only [fireTimer, hg, hp, hdue, if_true]
  simp only [rejectDefer, hg, hp]
  have hn : 0 < r.deadlines.length := by
    obtain ⟨d, hdmem, _⟩ := List.any_eq_true.mp hdue
    exact List.length_pos_of_mem hdmem
  obtain ⟨h1, h2⟩ := iterTH_fires r.stack r.deadlines.length
    { s with regs := updAt s.regs i (fun q => { q with defer := .rejectedD "timeout" }) }
    (exitDich_of_regs_update s _ hdich) hn
  rw [← hs]
  exact ⟨h1, h2⟩

theorem foldFire_fired1 (t : Nat) (L : List Nat) (s : SentinelState) (h : exitFired1 s) :
    exitFired1 (L.foldl (fun s1 rid => fireTimer t rid s1) s) := by
  induction L generalizing s with
  | nil => exact h
  | cons a rest ih =>
    simp only [List.foldl_cons]
    exact ih (fireTimer t a s) (exitFired1_fireTimer t a s h)

theorem foldFire_logs_mono (t : Nat) (L : List Nat) (s : SentinelState) (l : LogLine)
    (h : l ∈ s.logs) : l ∈ (L.foldl (fun s1 rid => fireTimer t rid s1) s).logs := by
  induction L generalizing s with
  | nil => exact h
  | cons a rest ih =>
    simp only [List.foldl_cons]
    exact ih (fireTimer t a s) (fireTimer_logs_mono t a s l h)

theorem foldFire_ready (t : Nat) (L : List Nat) (s : SentinelState) (i : Nat) (sig : String)
    (hmem : i ∈ L) (hr : regStallReady s i sig t) (hdich : exitDich s) :
    exitFired1 (L.foldl (fun s1 rid => fireTimer t rid s1) s) ∧
    LogLine.timeoutLog sig currentStackStr ∈
      (L.foldl (fun s1 rid => fireTimer t rid s1) s).logs := by
  induction L generalizing s with
  | nil => cases hmem
  | cons a rest ih =>
    simp only [List.foldl_cons]
    by_cases ha : a = i
    · subst ha
      obtain ⟨h1, h2⟩ := fireTimer_ready t a sig s hr hdich
      exact ⟨foldFire_fired1 t rest _ h1, foldFire_logs_mono t rest _ _ h2⟩
    · have hmem2 : i ∈ rest := by
        cases List.mem_cons.mp hmem with
        | inl h => exact absurd h.symm ha
        | inr h => exact h
      exact ih (fireTimer t a s) hmem2
        (regStallReady_fireTimer_ne t a i sig s (fun hc => ha hc.symm) hr)
        (exitDich_fireTimer t a s hdich)

/-! ## Parked aggregation processing lemmas -/

theorem processAggsAux_consumed (as : List PendingAgg) (s : SentinelState)
    (h : s.exitConsumed = true) :
    (processAggsAux as s).exitCalls = s.exitCalls ∧
    (processAggsAux as s).logs = s.logs ∧
    (processAggsAux as s).exitConsumed = true := by
  induction as generalizing s with
  | nil => exact ⟨rfl, rfl, h⟩
  | cons a rest ih =>
    cases hA : aggNow s a.toks with
    | resolvedA =>
      simp only [processAggsAux, hA]
      have hres : resolveCb a.code s = s := by
        rw [resolveCb_eq]
        simp [exitCall, h]
      rw [hres]
      exact ih s h
    | rejectedA e =>
      simp only [processAggsAux, hA, rejectCb_eq]
      exact ih s h
    | pendingA =>
      simp only [processAggsAux, hA]
      obtain ⟨h1, h2, h3⟩ := ih { s with pendingAggs := s.pendingAggs ++ [a] } h
      exact ⟨h1, h2, h3⟩

theorem processPendingAggs_consumed (s : SentinelState) (h : s.exitConsumed = true) :
    (processPendingAggs s).exitCalls = s.exitCalls ∧
    (processPendingAggs s).logs = s.logs ∧
    (processPendingAggs s).exitConsumed = true := by
  unfold processPendingAggs
  exact processAggsAux_consumed s.pendingAggs { s with pendingAggs := [] } h

/-! ## The stuck-handler timeout scenario -/

theorem deferMatches_stall {v : Bool} {d : DeferState} (h : deferMatches (.hStall v) d) :
    d = .pending := by
  cases d with
  | pending => rfl
  | resolvedD e => exact False.elim h
  | rejectedD e => exact False.elim h

theorem dispatchEmit_outer (name : String) (args : List JsVal) (s : SentinelState) :
    outerEq s (dispatchEmit name args s) := by
  simp only [dispatchEmit]
  exact outerEq_trans (runEntries_outer _ _ _ _) (runEntries_outer _ _ _ _)

theorem exitDich_dispatchEmit (name : String) (args : List JsVal) (s : SentinelState)
    (h : exitDich s) : exitDich (dispatchEmit name args s) := by
  simp only [dispatchEmit]
  exact exitDich_runEntries _ _ _ _ (exitDich_runEntries _ _ _ _ h)

theorem dispatch_invoke_facts (name : String) (args : List JsVal) (n : Nat)
    (s : SentinelState) (i : Nat) (r : Reg)
    (hbucket : alistGet s.onMap name = wrapperRange 0 n)
    (hany : s.anyList = [])
    (hi : i < n)
    (hreg : s.regs.get? i = some r) (hf : r.fired = false) (hd : r.defer = .pending) :
    ∃ d, (dispatchEmit name args s).regs.get? i =
        some { r with fired := true, deadlines := r.deadlines ++ [s.now + s.timeoutVal],
                      defer := d } ∧
      deferMatches r.behavior d := by
  simp only [dispatchEmit]
  rw [hbucket]
  have hanyX : (runEntries (args.getD 0 .undef) (args.getD 1 .undef)
      (wrapperRange 0 n) s).anyList = [] := by
    rw [outerEq_anyList (runEntries_outer _ _ _ _), hany]
  rw [hanyX]
  exact runEntries_wr_invoke _ _ n 0 s i r (by omega) (by omega) hreg hf hd

/-- C6: a handler that never calls its completion callback forces the
real termination primitive to be invoked with code 1 once the configured
timeout (set through the `timeout` setter; the constructor default is
3000) has elapsed, together with a console line carrying the handler's
registration-time stack and the current stack — regardless of the stuck
handler's veto, of the other handlers' vetoes and of whether the other
handlers resolve, reject or are stuck themselves. -/
theorem c6_stuck_handler_forces_exit_one (bs : List HBehavior) (T : Nat) (i : Nat) (v : Bool)
    (hi : bs.get? i = some (.hStall v)) :
    (elapse T (processTerminationHandler "t" .undef
        (setTimeoutVal T (setupMany bs initState)))).exitCalls = [.numV 1] ∧
    LogLine.timeoutLog (stackStr i) currentStackStr ∈
      (elapse T (processTerminationHandler "t" .undef
        (setTimeoutVal T (setupMany bs initState)))).logs := by
  obtain ⟨s1, s2, s3, s4, s5, s6, s7, s8, s9, s10, s11, s12, s13, s14⟩ :=
    setupMany_spec bs initState rfl
  have hlt : i < bs.length := by
    by_contra hc
    rw [List.get?_eq_none.mpr (by omega)] at hi
    exact Option.noConfusion hi
  have hreg0 : (setupMany bs initState).regs.get? i = some (freshReg i (.hStall v)) := by
    rw [s2]
    show (mkRegs 0 bs).get? i = _
    rw [mkRegs_get, hi]
    simp [Nat.zero_add]
  have hbdel : alistGet (firedMapUpd "t" (setTimeoutVal T (setupMany bs initState))).onMap "t"
      = wrapperRange 0 bs.length := by
    show alistGet (setupMany bs initState).onMap "t" = _
    rw [s3]
    rfl
  have hadel : (firedMapUpd "t" (setTimeoutVal T (setupMany bs initState))).anyList = [] := by
    show (setupMany bs initState).anyList = []
    rw [s4]
    rfl
  have hrdel : (firedMapUpd "t" (setTimeoutVal T (setupMany bs initState))).regs.get? i
      = some (freshReg i (.hStall v)) := hreg0
  obtain ⟨d, hgetM, hdm⟩ := dispatch_invoke_facts "t" [.strV "t"] bs.length
    (firedMapUpd "t" (setTimeoutVal T (setupMany bs initState)))
    i (freshReg i (.hStall v)) hbdel hadel hlt hrdel rfl rfl
  have hdp : d = DeferState.pending := deferMatches_stall hdm
  subst hdp
  have hnow0 : (firedMapUpd "t" (setTimeoutVal T (setupMany bs initState))).now = 0 := s13
  have htv : (firedMapUpd "t" (setTimeoutVal T (setupMany bs initState))).timeoutVal = T := rfl
  rw [hnow0, htv] at hgetM
  have hdichM : exitDich (dispatchEmit "t" [.strV "t"]
      (firedMapUpd "t" (setTimeoutVal T (setupMany bs initState)))) :=
    exitDich_dispatchEmit _ _ _ (Or.inl ⟨s10, s11⟩)
  have hpendM : isResolvedTok (dispatchEmit "t" [.strV "t"]
      (firedMapUpd "t" (setTimeoutVal T (setupMany bs initState)))) i = false := by
    simp only [isResolvedTok, hgetM]
  have hpromT : alistGet (dispatchEmit "t" [.strV "t"]
      (firedMapUpd "t" (setTimeoutVal T (setupMany bs initState)))).promises "t"
      = ridRange 0 bs.length := by
    rw [outerEq_promises (dispatchEmit_outer _ _ _)]
    show alistGet (setupMany bs initState).promises "t" = _
    rw [s5]
    rfl
  have hpromA : alistGet (dispatchEmit "t" [.strV "t"]
      (firedMapUpd "t" (setTimeoutVal T (setupMany bs initState)))).promises "any" = [] := by
    rw [outerEq_promises (dispatchEmit_outer _ _ _)]
    show alistGet (setupMany bs initState).promises "any" = []
    rw [s6]
    rfl
  have hmemP : i ∈ alistGet (dispatchEmit "t" [.strV "t"]
        (firedMapUpd "t" (setTimeoutVal T (setupMany bs initState)))).promises "t"
      ++ alistGet (dispatchEmit "t" [.strV "t"]
        (firedMapUpd "t" (setTimeoutVal T (setupMany bs initState)))).promises "any" := by
    rw [hpromT, hpromA, List.append_nil]
    exact ridRange_mem bs.length 0 i (by omega) (by omega)
  obtain ⟨he1, he2⟩ := attachAgg_exit_of_pending_tok "t" .undef
    (dispatchEmit "t" [.strV "t"] (firedMapUpd "t" (setTimeoutVal T (setupMany bs initState))))
    ⟨i, hmemP, hpendM⟩
  have hdichP : exitDich (processTerminationHandler "t" .undef
      (setTimeoutVal T (setupMany bs initState))) := by
    cases hdichM with
    | inl h => exact Or.inl ⟨he1.trans h.1, he2.trans h.2⟩
    | inr h => exact Or.inr ⟨he1.trans h.1, he2.trans h.2⟩
  have hregP : (processTerminationHandler "t" .undef
      (setTimeoutVal T (setupMany bs initState))).regs.get? i
      = some { uid := i, behavior := .hStall v, fired := true, defer := .pending,
               stack := stackStr i, deadlines := [0 + T] } := by
    show (attachAgg "t" .undef (dispatchEmit "t" [.strV "t"]
      (firedMapUpd "t" (setTimeoutVal T (setupMany bs initState))))).regs.get? i = _
    rw [attachAgg_regs]
    exact hgetM
  have hlenP : (processTerminationHandler "t" .undef
      (setTimeoutVal T (setupMany bs initState))).regs.length = bs.length := by
    show (attachAgg "t" .undef (dispatchEmit "t" [.strV "t"]
      (firedMapUpd "t" (setTimeoutVal T (setupMany bs initState))))).regs.length = _
    rw [attachAgg_regs, outerEq_regsLength (dispatchEmit_outer _ _ _)]
    show (setupMany bs initState).regs.length = bs.length
    rw [s2]
    simp [initState, mkRegs_length]
  have hready : regStallReady
      { processTerminationHandler "t" .undef (setTimeoutVal T (setupMany bs initState)) with
        now := T } i (stackStr i) T := by
    refine ⟨_, hregP, rfl, rfl, ?_⟩
    simp
  have hdichNow : exitDich
      { processTerminationHandler "t" .undef (setTimeoutVal T (setupMany bs initState)) with
        now := T } := by
    cases hdichP with
    | inl h => exact Or.inl ⟨h.1, h.2⟩
    | inr h => exact Or.inr ⟨h.1, h.2⟩
  simp only [elapse, fireDueTimers]
  rw [hlenP]
  obtain ⟨hf1, hf2⟩ := foldFire_ready T (List.range bs.length) _ i (stackStr i)
    (List.mem_range.mpr hlt) hready hdichNow
  obtain ⟨hp1, hp2, hp3⟩ := processPendingAggs_consumed _ hf1.1
  exact ⟨hp1.trans hf1.2, by rw [hp2]; exact hf2⟩

theorem c6_witness :
    ([HBehavior.hResolve true, HBehavior.hStall false].get? 1
      = some (HBehavior.hStall false)) ∧
    (elapse 3000 (processTerminationHandler "t" .undef (setTimeoutVal 3000
      (setupMany [HBehavior.hResolve true, HBehavior.hStall false] initState)))).exitCalls
      = [.numV 1] ∧
    LogLine.timeoutLog (stackStr 1) currentStackStr ∈
      (elapse 3000 (processTerminationHandler "t" .undef (setTimeoutVal 3000
        (setupMany [HBehavior.hResolve true, HBehavior.hStall false] initState)))).logs := by
  refine ⟨rfl, ?_, ?_⟩
  · exact (c6_stuck_handler_forces_exit_one [HBehavior.hResolve true, HBehavior.hStall false]
      3000 1 false rfl).1
  · exact (c6_stuck_handler_forces_exit_one [HBehavior.hResolve true, HBehavior.hStall false]
      3000 1 false rfl).2
